import Mathlib

/-!
Shallow embedding of the sliding-puzzle solver from `src/src/wasm/advanced_solver.cpp`
(4x4 and 5x5 boards, staged progressive-locking solver with IDA*, a BFS fallback,
and a breadth-first pattern-database builder), together with theorems settling the
frozen claims about the specification.

Machine integers of the C++ code are modelled as `Nat`/`Int` (all quantities that
matter stay far below 2^31 in every run the theorems speak about); the C++
`std::set`/`unordered_set`/`unordered_map` containers are modelled as lists with
membership/association-list semantics (the source only uses them through
membership, insertion and lookup, so ordering is irrelevant); out-of-bounds
accesses that are undefined behaviour in C++ are modelled by `Option` (`none`)
where a claim depends on them, and otherwise guarded by the validity hypotheses
of the theorems.
-/

namespace Sliding

/-- Board state, mirroring `struct PuzzleState`: tile values in row-major order
(`std::vector<uint8_t> tiles`), the side length (`int size`), and the blank index
(`int empty`, `-1` when no zero byte was found by the constructor's scan). -/
structure PuzzleState where
  tiles : List Nat
  size : Nat
  empty : Int
deriving Repr, DecidableEq

/-- The constructor's blank scan `for(i<n) if(tiles[i]==0) empty=i;` starting from
`empty=-1`: the result is the last index holding 0, or `-1` if none. -/
def lastZeroIdx (tiles : List Nat) (n : Nat) : Int :=
  (List.range n).foldl (fun acc i => if tiles.getD i 0 = 0 then (i : Int) else acc) (-1)

/-- `PuzzleState(const uint8_t* arr, int sz)`: copy `sz*sz` bytes and scan for the blank. -/
def mkState (arr : List Nat) (sz : Nat) : PuzzleState :=
  ⟨arr.take (sz * sz), sz, lastZeroIdx (arr.take (sz * sz)) (sz * sz)⟩

/-- `PuzzleState::isSolved`: tiles `1..size*size-1` in order and the blank last. -/
def PuzzleState.isSolved (s : PuzzleState) : Bool :=
  ((List.range (s.size * s.size - 1)).all fun i => s.tiles.getD i 0 == i + 1) &&
    (s.tiles.getD (s.size * s.size - 1) 0 == 0)

/-- `manhattan`: sum over non-blank tiles of `|row - goal_row| + |col - goal_col|`. -/
def manhattan (state : PuzzleState) : Nat :=
  let sz := state.size
  ((List.range (sz * sz)).map fun i =>
    let v := state.tiles.getD i 0
    if v = 0 then 0
    else
      let gi := v - 1
      (((gi / sz : Nat) : Int) - ((i / sz : Nat) : Int)).natAbs +
        (((gi % sz : Nat) : Int) - ((i % sz : Nat) : Int)).natAbs).sum

/-- `rotate90`: the source writes `res[c*sz+sz-1-r] = t[r*sz+c]` into a zero-filled
vector; since `(r,c) ↦ (c, sz-1-r)` is a bijection of the grid, the result is the
gather form used here. -/
def rotate90 (t : List Nat) (sz : Nat) : List Nat :=
  (List.range (sz * sz)).map fun i => t.getD ((sz - 1 - i % sz) * sz + i / sz) 0

/-- `reflect_h`: the source writes `res[r*sz+sz-1-c] = t[r*sz+c]`; gather form. -/
def reflect_h (t : List Nat) (sz : Nat) : List Nat :=
  (List.range (sz * sz)).map fun i => t.getD ((i / sz) * sz + (sz - 1 - i % sz)) 0

/-- `all_symmetries`: identity, three rotations, and the reflection of each. -/
def all_symmetries (t : List Nat) (sz : Nat) : List (List Nat) :=
  let r90 := rotate90 t sz
  let r180 := rotate90 r90 sz
  let r270 := rotate90 r180 sz
  [t, r90, r180, r270, reflect_h t sz, reflect_h r90 sz, reflect_h r180 sz, reflect_h r270 sz]

/-- The four blank-move directions `dir4 = {{-1,0},{1,0},{0,-1},{0,1}}`. -/
def dir4 : List (Int × Int) := [(-1, 0), (1, 0), (0, -1), (0, 1)]

/-- The neighbour computation shared by every search loop: `r=empty/sz, c=empty%sz,
nr=r+d.first, nc=c+d.second`, rejected when outside the grid, otherwise `ni=nr*sz+nc`. -/
def neighborIdx (sz : Nat) (e : Nat) (d : Int × Int) : Option Nat :=
  let r : Int := (e : Int) / (sz : Int)
  let c : Int := (e : Int) % (sz : Int)
  let nr := r + d.1
  let nc := c + d.2
  if 0 ≤ nr ∧ nr < (sz : Int) ∧ 0 ≤ nc ∧ nc < (sz : Int) then some (nr * sz + nc).toNat
  else none

/-- `std::swap(xs[i], xs[j])` on a list. -/
def swapL (xs : List Nat) (i j : Nat) : List Nat :=
  (xs.set i (xs.getD j 0)).set j (xs.getD i 0)

/-- Association list standing for `std::unordered_map<std::string,int>` keyed by the
byte sequence of `tiles`. -/
abbrev Pdb := List (List Nat × Nat)

/-- `pdb[key] = depth`: overwrite the existing binding or append a new one. -/
def pdbSet (m : Pdb) (k : List Nat) (v : Nat) : Pdb :=
  if (m.lookup k).isSome then m.map fun p => if p.1 == k then (k, v) else p
  else m ++ [(k, v)]

/-- The start layout of `build_pdb`: a zero-filled vector with `solved[i]=i+1` for
`i < ntiles` and `solved[sz*sz-1]=0`. -/
def pdbInitTiles (sz ntiles : Nat) : List Nat :=
  (((List.range ntiles).foldl (fun v i => v.set i (i + 1))
    (List.replicate (sz * sz) (0 : Nat))).set (sz * sz - 1) 0)

/-- The child-generation step of the breadth-first loop of `build_pdb` (the body of
its `for(d)` loop): swap the blank with the neighbour, discard children whose
prefix tiles `1..ntiles` are not all placed or that were already seen, and
otherwise enqueue them and mark them seen. -/
def pdbStep (sz ntiles : Nat) (tiles : List Nat) (depth e : Nat)
    (acc : List (List Nat × Nat) × List (List Nat)) (d : Int × Int) :
    List (List Nat × Nat) × List (List Nat) :=
  match neighborIdx sz e d with
  | none => acc
  | some ni =>
    let nt := swapL tiles e ni
    if (List.range ntiles).all (fun i => nt.getD i 0 == i + 1) then
      if nt ∈ acc.2 then acc
      else (acc.1 ++ [(nt, depth + 1)], nt :: acc.2)
    else acc

/-- The breadth-first loop of `build_pdb`. The queue/`Seen`/map are the source's
`Q`, `Seen` and `pdb`; `fuel` bounds the number of loop iterations (the
supporting lemmas show that from the configuration `build_pdb` actually starts
from, the loop stops after its very first iteration, so any positive fuel gives
the loop's true fixed point). -/
def build_pdb_go (sz ntiles max_depth : Nat) :
    Nat → List (List Nat × Nat) → List (List Nat) → Pdb → Pdb
  | 0, _, _, pdb => pdb
  | _ + 1, [], _, pdb => pdb
  | fuel + 1, (tiles, depth) :: Q, seen, pdb =>
    let pdb' := pdbSet pdb tiles depth
    if depth ≥ max_depth then build_pdb_go sz ntiles max_depth fuel Q seen pdb'
    else
      let e := (lastZeroIdx tiles (sz * sz)).toNat
      let qs := dir4.foldl (pdbStep sz ntiles tiles depth e) ([], seen)
      build_pdb_go sz ntiles max_depth fuel (Q ++ qs.1) qs.2 pdb'

/-- `build_pdb(sz, ntiles, pdb, max_depth)`: breadth-first expansion of blank moves
from the stage-goal layout, child-filtered so tiles `1..ntiles` stay placed. -/
def build_pdb (sz ntiles max_depth : Nat) : Pdb :=
  build_pdb_go sz ntiles max_depth (sz * sz * (max_depth + 2) + 1)
    [(pdbInitTiles sz ntiles, 0)] [pdbInitTiles sz ntiles] []

/-- The three process-wide pattern databases. -/
structure Globals where
  pdb4s1 : Pdb
  pdb5s1 : Pdb
  pdb5s2 : Pdb
deriving Repr, DecidableEq

/-- `pdb_heuristic(state, stage, sz)`: PDB depth when the layout key is present,
Manhattan distance otherwise. -/
def pdb_heuristic (g : Globals) (state : PuzzleState) (stage sz : Nat) : Nat :=
  let key := state.tiles
  if sz = 4 ∧ stage = 1 ∧ (g.pdb4s1.lookup key).isSome then (g.pdb4s1.lookup key).getD 0
  else if sz = 5 ∧ stage = 1 ∧ (g.pdb5s1.lookup key).isSome then (g.pdb5s1.lookup key).getD 0
  else if sz = 5 ∧ stage = 2 ∧ (g.pdb5s2.lookup key).isSome then (g.pdb5s2.lookup key).getD 0
  else manhattan state

/-- `INT_MAX`, the sentinel the depth-first search returns on budget exhaustion. -/
def intMax : Int := 2147483647

/-- The mutable state captured by the recursive lambda `dfs` inside `ida_star`:
node counter, transposition table (a set of tile vectors: `PuzzleState` equality
and hashing are over `tiles` alone), the move path, the `found` flag, and the
failure tag. -/
structure DfsCtx where
  nodes : Nat
  tt : List (List Nat)
  path : List Nat
  found : Bool
  failReason : String
deriving Repr, DecidableEq

/-- The child-exploration step of the depth-first search in `ida_star` (the body
of its `for(d)` loop): skip once the goal was found, skip out-of-grid, locked and
immediately-reversing moves, apply the move, prune children one of whose eight
symmetric images was already visited, and otherwise push the moved tile onto the
path and recurse through `rec` (the depth-first search one fuel level down),
keeping the path on success and popping it otherwise. -/
def dfsStep (sz : Nat) (locked : List Nat) (state : PuzzleState) (prev_empty : Int) (er : Nat)
    (rec : PuzzleState → DfsCtx → Int × DfsCtx) (acc : Int × DfsCtx) (d : Int × Int) :
    Int × DfsCtx :=
  if acc.2.found then acc
  else
    match neighborIdx sz er d with
    | none => acc
    | some ni =>
      if ni ∈ locked then acc
      else if prev_empty = (ni : Int) then acc
      else
        let nxt : PuzzleState := ⟨swapL state.tiles er ni, state.size, (ni : Int)⟩
        if (all_symmetries nxt.tiles sz).any (fun t => decide (t ∈ acc.2.tt)) then acc
        else
          let mv := nxt.tiles.getD er 0
          let cx1 := { acc.2 with path := acc.2.path ++ [mv] }
          let tc := rec nxt cx1
          if tc.2.found then (-1, tc.2)
          else (min acc.1 tc.1, { tc.2 with path := tc.2.path.dropLast })

/-- The recursive `dfs(state, g, prev_empty)` of `ida_star`. `fuel` bounds the
recursion depth; `ida_star` passes `node_limit + 2`, and since every call
increments `nodes` before recursing, a call at depth `node_limit + 2` always has
`nodes > node_limit`, so the fuel-exhaustion branch returns exactly what the
node-budget branch returns there. -/
def dfsGo (g : Globals) (sz stage node_limit : Nat) (locked : List Nat) (threshold : Int) :
    Nat → PuzzleState → Nat → Int → DfsCtx → Int × DfsCtx
  | 0, _, _, _, ctx => (intMax, { ctx with nodes := ctx.nodes + 1, failReason := "node_limit" })
  | fuel + 1, state, gdep, prev_empty, ctx0 =>
    let ctx := { ctx0 with nodes := ctx0.nodes + 1 }
    if ctx.nodes > node_limit then (intMax, { ctx with failReason := "node_limit" })
    else
      let h := if stage = 1 then pdb_heuristic g state stage sz else manhattan state
      let f : Int := (gdep : Int) + (h : Int)
      if f > threshold then (f, ctx)
      else if (stage == 2 && state.isSolved) || (stage == 1 && h == 0) then
        (-1, { ctx with found := true })
      else
        let ctx1 := { ctx with tt := state.tiles :: ctx.tt }
        dir4.foldl
          (dfsStep sz locked state prev_empty state.empty.toNat
            (fun nxt cx => dfsGo g sz stage node_limit locked threshold fuel nxt (gdep + 1)
              state.empty cx))
          (intMax, ctx1)

/-- One search result of `ida_star` (`struct IDAResult`). -/
structure IDAResult where
  moves : List Nat
  success : Bool
  nodes : Nat
  length : Nat
  fail_reason : String
deriving Repr, DecidableEq

/-- The outer iterative-deepening loop of `ida_star`. Wall-clock sampling between
iterations is modelled by the oracle `timeoutAfter : Nat → Bool` (whether the
elapsed time exceeded `time_limit_ms` after the given iteration). `fuel` bounds
the number of iterations; a run needing more than `INT_MAX` iterations would have
overflowed the C++ `int` threshold (the threshold strictly increases every
iteration), and is modelled as `none`. -/
def ida_loop (g : Globals) (start : PuzzleState) (sz stage node_limit : Nat)
    (timeoutAfter : Nat → Bool) (locked : List Nat) :
    Nat → Nat → Int → List Nat → String → Option IDAResult
  | 0, _, _, _, _ => none
  | fuel + 1, iter, threshold, path, reason =>
    let rc := dfsGo g sz stage node_limit locked threshold (node_limit + 2) start 0 (-1)
      ⟨0, [], path, false, reason⟩
    if rc.2.found then some ⟨rc.2.path, true, rc.2.nodes, rc.2.path.length, rc.2.failReason⟩
    else if rc.1 = intMax ∨ rc.2.nodes > node_limit then
      some ⟨rc.2.path, false, rc.2.nodes, rc.2.path.length, "search_limit"⟩
    else if timeoutAfter iter then
      some ⟨rc.2.path, false, rc.2.nodes, rc.2.path.length, "timeout"⟩
    else ida_loop g start sz stage node_limit timeoutAfter locked fuel (iter + 1) rc.1
      rc.2.path rc.2.failReason

/-- `ida_star(start, sz, max_depth, stage, node_limit, time_limit_ms, locked)`.
`max_depth` is accepted and ignored, exactly as in the source; `time_limit_ms`
is realised through the `timeoutAfter` oracle. -/
def ida_star (g : Globals) (timeoutAfter : Nat → Bool) (start : PuzzleState)
    (sz max_depth stage node_limit time_limit_ms : Nat) (locked : List Nat) :
    Option IDAResult :=
  let _ := max_depth
  let _ := time_limit_ms
  let threshold : Int :=
    if stage = 1 then (pdb_heuristic g start stage sz : Int) else (manhattan start : Int)
  ida_loop g start sz stage node_limit timeoutAfter locked 2147483647 0 threshold [] ""

/-- Result of the BFS fallback (`struct BiBFSResult`). -/
structure BiBFSResult where
  moves : List Nat
  success : Bool
  nodes : Nat
  length : Nat
  fail_reason : String
deriving Repr, DecidableEq

/-- The solved layout built at the top of `bibfs`. -/
def goalTiles (sz : Nat) : List Nat :=
  (((List.range (sz * sz - 1)).foldl (fun v i => v.set i (i + 1))
    (List.replicate (sz * sz) (0 : Nat))).set (sz * sz - 1) 0)

/-- The child-generation step of the BFS fallback (the body of its `for(d)`
loop): skip out-of-grid and locked moves, apply the move, skip already-visited
children, and otherwise enqueue them with the extended move list. -/
def bibfsStep (sz : Nat) (locked : List Nat) (state : PuzzleState) (moves : List Nat) (er : Nat)
    (acc : List (PuzzleState × List Nat) × List (List Nat)) (d : Int × Int) :
    List (PuzzleState × List Nat) × List (List Nat) :=
  match neighborIdx sz er d with
  | none => acc
  | some ni =>
    if ni ∈ locked then acc
    else
      let nxt : PuzzleState := ⟨swapL state.tiles er ni, state.size, (ni : Int)⟩
      if nxt.tiles ∈ acc.2 then acc
      else (acc.1 ++ [(nxt, moves ++ [nxt.tiles.getD er 0])], nxt.tiles :: acc.2)

/-- The queue loop of `bibfs`: a forward BFS bounded by `max_depth` and
`node_limit`, honouring the locked set. Terminates because `nodes` increases by
one per iteration and the loop requires `nodes < node_limit`. -/
def bibfsLoop (sz max_depth node_limit : Nat) (locked : List Nat) (goal : PuzzleState) :
    List (PuzzleState × List Nat) → List (List Nat) → Nat → BiBFSResult
  | [], _, nodes => ⟨[], false, nodes, 0, "failed"⟩
  | (state, moves) :: rest, vis, nodes =>
    if hn : nodes < node_limit then
      if state.tiles = goal.tiles then ⟨moves, true, nodes + 1, moves.length, ""⟩
      else if moves.length ≥ max_depth then
        bibfsLoop sz max_depth node_limit locked goal rest vis (nodes + 1)
      else
        let qs := dir4.foldl (bibfsStep sz locked state moves state.empty.toNat) ([], vis)
        bibfsLoop sz max_depth node_limit locked goal (rest ++ qs.1) qs.2 (nodes + 1)
    else ⟨[], false, nodes, 0, "failed"⟩
  termination_by _ _ nodes => node_limit - nodes
  decreasing_by
    all_goals omega

/-- `bibfs(start, sz, max_depth, stage, node_limit, locked)`; `stage` is accepted
and ignored, as in the source. -/
def bibfs (start : PuzzleState) (sz max_depth stage node_limit : Nat) (locked : List Nat) :
    BiBFSResult :=
  let _ := stage
  bibfsLoop sz max_depth node_limit locked ⟨goalTiles sz, sz, ((sz * sz - 1 : Nat) : Int)⟩
    [(start, [])] [start.tiles] 0

/-- The tile scan of `apply_moves`/`validate_solution`:
`for(j<n) if(tiles[j]==mv) from=j;` starting from `from=-1` (last occurrence). -/
def lastIdxOf (tiles : List Nat) (mv : Nat) (n : Nat) : Int :=
  (List.range n).foldl (fun acc j => if tiles.getD j 0 = mv then (j : Int) else acc) (-1)

/-- One playback step of `apply_moves`: locate the named tile and swap it with
the blank. When the tile is absent the C++ code indexes at `-1` (undefined
behaviour); that situation is modelled as a no-op and never arises under the
validity hypotheses of the theorems below. -/
def apply_move (state : PuzzleState) (mv : Nat) : PuzzleState :=
  let sz := state.size
  let fr := lastIdxOf state.tiles mv (sz * sz)
  if 0 ≤ fr then ⟨swapL state.tiles state.empty.toNat fr.toNat, sz, fr⟩
  else state

/-- `apply_moves(state, moves)`. -/
def apply_moves (state : PuzzleState) (moves : List Nat) : PuzzleState :=
  moves.foldl apply_move state

/-- The stage loop of `solve_4x4` over the prefix cells `0..5`, followed by the
endgame: stage-2 IDA*, then the BFS fallback. Returns the pair (return value,
bytes written to `moves_out`); `none` stands for a run the model places out of
scope (an `ida_star` whose iteration count would overflow the C++ threshold). -/
def solve4Go (g : Globals) (tos : Nat → Nat → Bool) :
    List Nat → PuzzleState → List Nat → List Nat → Option (Int × List Nat)
  | [], cur, locked, all_moves =>
    match ida_star g (tos 6) cur 4 40 2 800000 16000 locked with
    | none => none
    | some res2 =>
      if res2.success then
        let am := all_moves ++ res2.moves
        some ((am.length : Int), am)
      else
        let res3 := bibfs cur 4 40 2 200000 locked
        if res3.success then
          let am := all_moves ++ res3.moves
          some ((am.length : Int), am)
        else some (-1, [])
  | i :: rest, cur, locked, all_moves =>
    if cur.tiles.getD i 0 = i + 1 then solve4Go g tos rest cur (i :: locked) all_moves
    else
      match ida_star g (tos i) cur 4 18 1 300000 4000 locked with
      | none => none
      | some res =>
        if res.success then
          solve4Go g tos rest (apply_moves cur res.moves) (i :: locked) (all_moves ++ res.moves)
        else some (-1, [])

/-- `solve_4x4`: build the stage-1 PDB on first use, then run the stage loop. -/
def solve_4x4 (g : Globals) (tos : Nat → Nat → Bool) (start : PuzzleState) :
    Option (Int × List Nat) :=
  let g' := if g.pdb4s1 = [] then { g with pdb4s1 := build_pdb 4 6 14 } else g
  solve4Go g' tos (List.range 6) start [] []

/-- First successful worker in order (`for(t) if(results[t].success) ...`). -/
def firstSuccess : List IDAResult → Option IDAResult
  | [] => none
  | r :: rs => if r.success then some r else firstSuccess rs

/-- The stage loop of `solve_5x5` over the prefix cells `0..11`, followed by the
four-worker endgame and the BFS fallback. The four workers run the same
deterministic `ida_star` on the same inputs; only their wall clocks can differ,
which the per-call oracles `tos 12 .. tos 15` capture, so the threads are
modelled as four sequential calls joined in worker order. -/
def solve5Go (g : Globals) (tos : Nat → Nat → Bool) :
    List Nat → PuzzleState → List Nat → List Nat → Option (Int × List Nat)
  | [], cur, locked, all_moves =>
    match ida_star g (tos 12) cur 5 60 2 400000 9000 locked,
          ida_star g (tos 13) cur 5 60 2 400000 9000 locked,
          ida_star g (tos 14) cur 5 60 2 400000 9000 locked,
          ida_star g (tos 15) cur 5 60 2 400000 9000 locked with
    | some r0, some r1, some r2, some r3 =>
      match firstSuccess [r0, r1, r2, r3] with
      | some res =>
        let am := all_moves ++ res.moves
        some ((am.length : Int), am)
      | none =>
        let res3 := bibfs cur 5 60 2 400000 locked
        if res3.success then
          let am := all_moves ++ res3.moves
          some ((am.length : Int), am)
        else some (-1, [])
    | _, _, _, _ => none
  | i :: rest, cur, locked, all_moves =>
    if cur.tiles.getD i 0 = i + 1 then solve5Go g tos rest cur (i :: locked) all_moves
    else
      match ida_star g (tos i) cur 5 25 1 250000 3000 locked with
      | none => none
      | some res =>
        if res.success then
          solve5Go g tos rest (apply_moves cur res.moves) (i :: locked) (all_moves ++ res.moves)
        else some (-1, [])

/-- `solve_5x5`: build the stage-1 PDB on first use, then run the stage loop. -/
def solve_5x5 (g : Globals) (tos : Nat → Nat → Bool) (start : PuzzleState) :
    Option (Int × List Nat) :=
  let g' := if g.pdb5s1 = [] then { g with pdb5s1 := build_pdb 5 12 16 } else g
  solve5Go g' tos (List.range 12) start [] []

/-- One `cnt[arr[i]]++` of `validate_input` (the body of its first loop); `none`
models the out-of-bounds access a byte `≥ n` causes, there being no range check. -/
def viStep (s : PuzzleState) (n : Nat) (acc : Option (List Nat)) (i : Nat) :
    Option (List Nat) :=
  match acc with
  | none => none
  | some cnt =>
    let v := s.tiles.getD i 0
    if v < n then some (cnt.set v (cnt.getD v 0 + 1)) else none

/-- `validate_input`: count each byte into `cnt[tiles[i]]` with no range check,
then require every count to be exactly 1. -/
def validate_input (s : PuzzleState) : Option Bool :=
  let sz := s.size
  let cnt? := (List.range (sz * sz)).foldl (viStep s (sz * sz))
    (some (List.replicate (sz * sz) (0 : Nat)))
  match cnt? with
  | none => none
  | some cnt => some ((List.range (sz * sz)).all fun i => cnt.getD i 0 == 1)

/-- Writing `moves_out[i] = all_moves[i]` for `i < all_moves.size()` into a
caller-provided buffer: the written bytes overwrite a prefix of the buffer. -/
def writeMoves (buf ws : List Nat) : List Nat := ws ++ buf.drop ws.length

/-- `solve_puzzle(arr, sz, moves_out)`: validate, short-circuit on solved boards,
dispatch on the size, and map any non-positive solver outcome to `-1`. The pair
returned is (return value, final contents of `moves_out`). -/
def solve_puzzle (g : Globals) (tos : Nat → Nat → Bool) (arr : List Nat) (sz : Nat)
    (moves_out : List Nat) : Option (Int × List Nat) :=
  let start := mkState arr sz
  match validate_input start with
  | none => none
  | some valid =>
    if !valid then some (-1, moves_out)
    else if start.isSolved then some (0, moves_out)
    else if sz = 4 then
      match solve_4x4 g tos start with
      | none => none
      | some rw =>
        if rw.1 > 0 then some (rw.1, writeMoves moves_out rw.2)
        else some (-1, writeMoves moves_out rw.2)
    else if sz = 5 then
      match solve_5x5 g tos start with
      | none => none
      | some rw =>
        if rw.1 > 0 then some (rw.1, writeMoves moves_out rw.2)
        else some (-1, writeMoves moves_out rw.2)
    else some (-1, moves_out)

/-- `validate_solution(arr, sz, moves, n_moves)`: replay the moves with the same
find-and-swap playback as `apply_moves` and report whether the result is solved. -/
def validate_solution (arr : List Nat) (sz : Nat) (moves : List Nat) (n_moves : Nat) : Int :=
  let s := apply_moves (mkState arr sz) (moves.take n_moves)
  if s.isSolved then 1 else 0

/-- A move byte is legal from a board iff the named tile sits on a cell
orthogonally adjacent to the blank (spec section on the Move data model). -/
def legalMove (s : PuzzleState) (mv : Nat) : Bool :=
  dir4.any fun d =>
    match neighborIdx s.size s.empty.toNat d with
    | some ni => s.tiles.getD ni 0 == mv
    | none => false

/-- A well-formed board of side `sz`: the tile vector is a permutation of
`0..sz*sz-1` and the cached blank index points at the zero tile. This is the
data-model invariant of the spec; `solve_puzzle` establishes it from
`validate_input` plus the constructor's blank scan. -/
def ValidBoard (sz : Nat) (s : PuzzleState) : Prop :=
  s.size = sz ∧ s.tiles.Perm (List.range (sz * sz)) ∧
    0 ≤ s.empty ∧ s.empty.toNat < sz * sz ∧ s.tiles.getD s.empty.toNat 0 = 0

instance (sz : Nat) (s : PuzzleState) : Decidable (ValidBoard sz s) := by
  unfold ValidBoard; infer_instance

/-- A sequence of moves each of which slides a tile orthogonally adjacent to the
blank into the blank, never moving the blank onto a locked cell. Each listed move
byte is the value that ends up on the old blank cell, i.e. the tile that slid,
exactly as the searches record it. -/
inductive LegalPath (sz : Nat) (locked : List Nat) : PuzzleState → List Nat → PuzzleState → Prop
  | nil (s : PuzzleState) : LegalPath sz locked s [] s
  | cons (s : PuzzleState) (d : Int × Int) (ni : Nat) (ms : List Nat) (s' : PuzzleState) :
      d ∈ dir4 →
      neighborIdx sz s.empty.toNat d = some ni →
      ni ∉ locked →
      LegalPath sz locked ⟨swapL s.tiles s.empty.toNat ni, s.size, (ni : Int)⟩ ms s' →
      LegalPath sz locked s (((swapL s.tiles s.empty.toNat ni).getD s.empty.toNat 0) :: ms) s'

/-- One iteration of the stage loop of `solve_4x4`, relating consecutive loop
states (remaining stage cells, current board, locked cells, accumulated moves)
exactly as `solve4Go` recurses: either the stage cell already holds its goal
tile and is locked in place, or the stage-1 IDA* is run with the current locked
set, succeeds, its moves are applied and appended, and the cell is locked. -/
inductive Solve4Step (g : Globals) (tos : Nat → Nat → Bool) :
    List Nat → PuzzleState → List Nat → List Nat →
    List Nat → PuzzleState → List Nat → List Nat → Prop
  | skip (i : Nat) (rest : List Nat) (cur : PuzzleState) (locked acc : List Nat) :
      cur.tiles.getD i 0 = i + 1 →
      Solve4Step g tos (i :: rest) cur locked acc rest cur (i :: locked) acc
  | search (i : Nat) (rest : List Nat) (cur : PuzzleState) (locked acc : List Nat)
      (res : IDAResult) :
      ¬(cur.tiles.getD i 0 = i + 1) →
      ida_star g (tos i) cur 4 18 1 300000 4000 locked = some res →
      res.success = true →
      Solve4Step g tos (i :: rest) cur locked acc
        rest (apply_moves cur res.moves) (i :: locked) (acc ++ res.moves)

/-- One iteration of the stage loop of `solve_5x5` (same shape as `Solve4Step`,
with the 5×5 stage-1 search parameters of `solve5Go`). -/
inductive Solve5Step (g : Globals) (tos : Nat → Nat → Bool) :
    List Nat → PuzzleState → List Nat → List Nat →
    List Nat → PuzzleState → List Nat → List Nat → Prop
  | skip (i : Nat) (rest : List Nat) (cur : PuzzleState) (locked acc : List Nat) :
      cur.tiles.getD i 0 = i + 1 →
      Solve5Step g tos (i :: rest) cur locked acc rest cur (i :: locked) acc
  | search (i : Nat) (rest : List Nat) (cur : PuzzleState) (locked acc : List Nat)
      (res : IDAResult) :
      ¬(cur.tiles.getD i 0 = i + 1) →
      ida_star g (tos i) cur 5 25 1 250000 3000 locked = some res →
      res.success = true →
      Solve5Step g tos (i :: rest) cur locked acc
        rest (apply_moves cur res.moves) (i :: locked) (acc ++ res.moves)

/-- The goal test of the depth-first search in `ida_star`: solvedness in stage 2,
vanishing heuristic in stage 1. -/
def goalHit (g : Globals) (stage sz : Nat) (s : PuzzleState) : Bool :=
  (stage == 2 && s.isSolved) ||
    (stage == 1 && ((if stage = 1 then pdb_heuristic g s stage sz else manhattan s) == 0))

/-! ### List and index helpers -/

theorem getD_set_self {xs : List Nat} {i v d : Nat} (h : i < xs.length) :
    (xs.set i v).getD i d = v := by
  simp [List.getD_eq_getElem?_getD, List.getElem?_set_self h]

theorem getD_set_ne {xs : List Nat} {i j : Nat} (h : i ≠ j) (v d : Nat) :
    (xs.set i v).getD j d = xs.getD j d := by
  simp [List.getD_eq_getElem?_getD, List.getElem?_set_ne h]

theorem set_getD_self (xs : List Nat) (i : Nat) : xs.set i (xs.getD i 0) = xs := by
  rcases Nat.lt_or_ge i xs.length with h | h
  · refine List.ext_getElem (by simp) ?_
    intro n h1 h2
    rcases eq_or_ne n i with rfl | hne
    · rw [List.getElem_set_self, List.getD_eq_getElem xs 0 h2]
    · rw [List.getElem_set_ne (Ne.symm hne)]
  · exact List.set_eq_of_length_le h

theorem swapL_length (xs : List Nat) (i j : Nat) : (swapL xs i j).length = xs.length := by
  simp [swapL]

theorem swapL_getD_fst {xs : List Nat} {i j : Nat} (hij : i ≠ j) (hi : i < xs.length) :
    (swapL xs i j).getD i 0 = xs.getD j 0 := by
  unfold swapL
  rw [getD_set_ne (Ne.symm hij), getD_set_self hi]

theorem swapL_getD_snd {xs : List Nat} {i j : Nat} (hj : j < xs.length) :
    (swapL xs i j).getD j 0 = xs.getD i 0 := by
  unfold swapL
  exact getD_set_self (by simpa using hj)

theorem swapL_getD_other {xs : List Nat} {i j k : Nat} (h1 : k ≠ i) (h2 : k ≠ j) :
    (swapL xs i j).getD k 0 = xs.getD k 0 := by
  unfold swapL
  rw [getD_set_ne (Ne.symm h2), getD_set_ne (Ne.symm h1)]

theorem swapL_self (xs : List Nat) (i : Nat) : swapL xs i i = xs := by
  unfold swapL
  rw [List.set_set, set_getD_self]

theorem swapL_perm {xs : List Nat} {i j : Nat} (hi : i < xs.length) (hj : j < xs.length) :
    (swapL xs i j).Perm xs := by
  rcases eq_or_ne i j with rfl | hij
  · rw [swapL_self]
  · rw [List.perm_iff_count]
    intro v
    have ha : xs.getD i 0 = xs[i] := List.getD_eq_getElem xs 0 hi
    have hb : xs.getD j 0 = xs[j] := List.getD_eq_getElem xs 0 hj
    unfold swapL
    rw [ha, hb]
    have hj' : j < (xs.set i xs[j]).length := by simpa using hj
    rw [List.count_set _ _ _ _ hj', List.count_set _ _ _ _ hi]
    have hgj : (xs.set i xs[j])[j] = xs[j] := List.getElem_set_ne hij hj'
    rw [hgj]
    simp only [beq_iff_eq]
    have hmem1 : xs[i] = v → 0 < List.count v xs := fun hv => by
      rw [List.count_pos_iff]
      exact hv ▸ List.getElem_mem hi
    rcases eq_or_ne xs[i] v with h1 | h1 <;> rcases eq_or_ne xs[j] v with h2 | h2
    · have := hmem1 h1
      rw [if_pos h1, if_pos h2]
      omega
    · have := hmem1 h1
      rw [if_pos h1, if_neg h2]
      omega
    · rw [if_neg h1, if_pos h2]
      omega
    · rw [if_neg h1, if_neg h2]
      omega

theorem swapL_involution {xs : List Nat} {i j : Nat} (hi : i < xs.length)
    (hj : j < xs.length) : swapL (swapL xs i j) j i = xs := by
  rcases eq_or_ne i j with rfl | hij
  · rw [swapL_self, swapL_self]
  · have hi' : i < (swapL xs i j).length := by rw [swapL_length]; exact hi
    have hj' : j < (swapL xs i j).length := by rw [swapL_length]; exact hj
    refine List.ext_getElem (by simp [swapL_length]) ?_
    intro n h1 h2
    rw [← List.getD_eq_getElem (swapL (swapL xs i j) j i) 0 h1,
      ← List.getD_eq_getElem xs 0 h2]
    rcases eq_or_ne n i with rfl | hni
    · rw [swapL_getD_snd hi', swapL_getD_snd hj]
    · rcases eq_or_ne n j with rfl | hnj
      · rw [swapL_getD_fst (Ne.symm hij) hj', swapL_getD_fst hij hi]
      · rw [swapL_getD_other hnj hni, swapL_getD_other hni hnj]

theorem natSum_eq_zero_iff (l : List Nat) : l.sum = 0 ↔ ∀ x ∈ l, x = 0 := by
  induction l with
  | nil => simp
  | cons a t ih => simp [Nat.add_eq_zero, ih]

theorem count_range_eq (n k : Nat) : List.count k (List.range n) = if k < n then 1 else 0 := by
  induction n with
  | zero => simp
  | succ m ih =>
    rw [List.range_succ, List.count_append, ih]
    have h1 : List.count k [m] = if m = k then 1 else 0 := by
      simp only [List.count_cons, List.count_nil, beq_iff_eq, Nat.zero_add]
    rw [h1]
    rcases Nat.lt_trichotomy k m with h | rfl | h
    · rw [if_pos h, if_neg (by omega), if_pos (by omega)]
    · rw [if_neg (by omega), if_pos rfl, if_pos (by omega)]
    · rw [if_neg (by omega), if_neg (by omega), if_neg (by omega)]

theorem foldSet_length (n k : Nat) :
    ((List.range k).foldl (fun v i => v.set i (i + 1)) (List.replicate n (0 : Nat))).length = n := by
  induction k with
  | zero => simp
  | succ m ih => rw [List.range_succ, List.foldl_append]; simp [ih]

theorem foldSet_getD (n k j : Nat) :
    ((List.range k).foldl (fun v i => v.set i (i + 1)) (List.replicate n (0 : Nat))).getD j 0 =
      if j < k ∧ j < n then j + 1 else 0 := by
  induction k with
  | zero =>
    simp only [List.range_zero, List.foldl_nil]
    rw [if_neg (by omega), List.getD_eq_getElem?_getD, List.getElem?_replicate]
    split <;> rfl
  | succ m ih =>
    rw [List.range_succ, List.foldl_append]
    simp only [List.foldl_cons, List.foldl_nil]
    rcases eq_or_ne j m with rfl | hne
    · rcases Nat.lt_or_ge j n with hn | hn
      · rw [getD_set_self (by rw [foldSet_length]; exact hn), if_pos ⟨by omega, hn⟩]
      · rw [List.set_eq_of_length_le (by rw [foldSet_length]; exact hn), ih,
          if_neg (by omega), if_neg (by omega)]
    · rw [getD_set_ne (Ne.symm hne), ih]
      rcases Nat.lt_or_ge j m with h | h
      · rcases Nat.lt_or_ge j n with h2 | h2
        · rw [if_pos ⟨h, h2⟩, if_pos ⟨by omega, h2⟩]
        · rw [if_neg (by omega), if_neg (by omega)]
      · rw [if_neg (by omega), if_neg (by omega)]

theorem lastZeroAux_nonneg (tiles : List Nat) (l : List Nat) (acc : Int) (h : 0 ≤ acc) :
    0 ≤ l.foldl (fun a i => if tiles.getD i 0 = 0 then (i : Int) else a) acc := by
  induction l generalizing acc with
  | nil => exact h
  | cons x t ih =>
    simp only [List.foldl_cons]
    split
    · exact ih _ (by positivity)
    · exact ih _ h

theorem lastZeroAux_found (tiles : List Nat) (l : List Nat) (acc : Int) (i : Nat)
    (hi : i ∈ l) (hz : tiles.getD i 0 = 0) :
    0 ≤ l.foldl (fun a k => if tiles.getD k 0 = 0 then (k : Int) else a) acc := by
  obtain ⟨s, t, rfl⟩ := List.append_of_mem hi
  rw [List.foldl_append, List.foldl_cons, if_pos hz]
  exact lastZeroAux_nonneg tiles t _ (by positivity)

theorem lastZeroIdx_spec (tiles : List Nat) (n : Nat) :
    lastZeroIdx tiles n = -1 ∨
      (0 ≤ lastZeroIdx tiles n ∧ (lastZeroIdx tiles n).toNat < n ∧
        tiles.getD (lastZeroIdx tiles n).toNat 0 = 0) := by
  unfold lastZeroIdx
  refine List.foldlRecOn (motive := fun acc =>
    acc = -1 ∨ (0 ≤ acc ∧ acc.toNat < n ∧ tiles.getD acc.toNat 0 = 0))
    (List.range n) _ (-1) (Or.inl rfl) ?_
  intro b hb a ha
  dsimp only
  split
  · right
    rename_i hz
    refine ⟨by positivity, ?_, ?_⟩
    · simpa using List.mem_range.mp ha
    · simpa using hz
  · exact hb

theorem lastZeroIdx_exists (tiles : List Nat) (n : Nat) (i : Nat) (hi : i < n)
    (hz : tiles.getD i 0 = 0) :
    0 ≤ lastZeroIdx tiles n ∧ (lastZeroIdx tiles n).toNat < n ∧
      tiles.getD (lastZeroIdx tiles n).toNat 0 = 0 := by
  have h0 : 0 ≤ lastZeroIdx tiles n :=
    lastZeroAux_found tiles (List.range n) (-1) i (List.mem_range.mpr hi) hz
  rcases lastZeroIdx_spec tiles n with h | h
  · rw [h] at h0; omega
  · exact h

theorem lastZeroIdx_last (tiles : List Nat) (n : Nat) (hn : 1 ≤ n)
    (hz : tiles.getD (n - 1) 0 = 0) : lastZeroIdx tiles n = ((n - 1 : Nat) : Int) := by
  unfold lastZeroIdx
  obtain ⟨m, rfl⟩ : ∃ m, n = m + 1 := ⟨n - 1, by omega⟩
  rw [List.range_succ, List.foldl_append, List.foldl_cons, List.foldl_nil]
  simp only [Nat.add_sub_cancel] at hz ⊢
  rw [if_pos hz]

theorem foldFind_stay (tiles : List Nat) (v : Nat) (j : Nat) (l : List Nat)
    (h : ∀ i ∈ l, tiles.getD i 0 = v → i = j) :
    l.foldl (fun acc i => if tiles.getD i 0 = v then (i : Int) else acc) (j : Int) = j := by
  induction l with
  | nil => rfl
  | cons x t ih =>
    simp only [List.foldl_cons]
    split
    · rename_i hx
      rw [h x (by simp) hx]
      exact ih fun i hi => h i (by simp [hi])
    · exact ih fun i hi => h i (by simp [hi])

theorem foldFind_mem (tiles : List Nat) (v : Nat) (j : Nat) (l : List Nat) (acc : Int)
    (hj : j ∈ l) (hv : tiles.getD j 0 = v)
    (h : ∀ i ∈ l, tiles.getD i 0 = v → i = j) :
    l.foldl (fun a i => if tiles.getD i 0 = v then (i : Int) else a) acc = j := by
  induction l generalizing acc with
  | nil => simp at hj
  | cons x t ih =>
    simp only [List.foldl_cons]
    rcases eq_or_ne x j with rfl | hxj
    · rw [if_pos hv]
      exact foldFind_stay tiles v x t fun i hi => h i (List.mem_cons_of_mem x hi)
    · have hjt : j ∈ t := by
        rcases List.mem_cons.mp hj with h' | h'
        · exact absurd h'.symm hxj
        · exact h'
      have hx : tiles.getD x 0 = v → x = j := h x (List.mem_cons_self x t)
      split
      · rename_i hxv
        exact absurd (hx hxv) hxj
      · exact ih _ hjt fun i hi => h i (List.mem_cons_of_mem x hi)

theorem lastIdxOf_eq {tiles : List Nat} {v n j : Nat} (hnod : tiles.Nodup)
    (hlen : tiles.length = n) (hj : j < n) (hv : tiles.getD j 0 = v) :
    lastIdxOf tiles v n = j := by
  unfold lastIdxOf
  refine foldFind_mem tiles v j _ _ (List.mem_range.mpr hj) hv ?_
  intro i hi hiv
  have hi' : i < n := List.mem_range.mp hi
  have h1 : tiles[i] = v := (List.getD_eq_getElem tiles 0 (by omega)).symm.trans hiv
  have h2 : tiles[j] = v := (List.getD_eq_getElem tiles 0 (by omega)).symm.trans hv
  have h3 : tiles[i] = tiles[j] := by rw [h1, h2]
  exact (List.Nodup.getElem_inj_iff hnod).mp h3

theorem map_getD_range (tiles : List Nat) (n : Nat) (hlen : tiles.length = n) :
    (List.range n).map (fun i => tiles.getD i 0) = tiles := by
  refine List.ext_getElem (by simp [hlen]) ?_
  intro k h1 h2
  rw [List.getElem_map, List.getElem_range, List.getD_eq_getElem tiles 0 (by omega)]

/-! ### Neighbour arithmetic -/

theorem nbr_dest {sz e : Nat} {d : Int × Int} {ni : Nat}
    (he : e < sz * sz) (h : neighborIdx sz e d = some ni) :
    ∃ r c nr nc : Nat, e = r * sz + c ∧ r < sz ∧ c < sz ∧
      ni = nr * sz + nc ∧ nr < sz ∧ nc < sz ∧
      (nr : Int) = (r : Int) + d.1 ∧ (nc : Int) = (c : Int) + d.2 := by
  unfold neighborIdx at h
  dsimp only at h
  split at h
  · rename_i hc
    obtain ⟨h1, h2, h3, h4⟩ := hc
    injection h with hni
    have hsz : 0 < sz := by
      by_contra hs
      have : sz = 0 := by omega
      subst this
      simp at h2
      omega
    refine ⟨e / sz, e % sz, ((e : Int) / (sz : Int) + d.1).toNat,
      ((e : Int) % (sz : Int) + d.2).toNat, ?_, ?_, ?_, ?_, ?_, ?_, ?_, ?_⟩
    · have h5 : sz * (e / sz) + e % sz = e := Nat.div_add_mod e sz
      have h6 : sz * (e / sz) = (e / sz) * sz := Nat.mul_comm _ _
      omega
    · exact Nat.div_lt_iff_lt_mul hsz |>.mpr he
    · exact Nat.mod_lt _ hsz
    · rw [← hni]
      have hnr : (((e : Int) / (sz : Int) + d.1).toNat : Int) = (e : Int) / (sz : Int) + d.1 :=
        Int.toNat_of_nonneg h1
      have hnc : (((e : Int) % (sz : Int) + d.2).toNat : Int) = (e : Int) % (sz : Int) + d.2 :=
        Int.toNat_of_nonneg h3
      have : (((e : Int) / (sz : Int) + d.1) * sz + ((e : Int) % (sz : Int) + d.2)) =
          ((((e : Int) / (sz : Int) + d.1).toNat * sz +
            ((e : Int) % (sz : Int) + d.2).toNat : Nat) : Int) := by
        push_cast
        rw [hnr, hnc]
      rw [this, Int.toNat_ofNat]
    · have hnr : (((e : Int) / (sz : Int) + d.1).toNat : Int) = (e : Int) / (sz : Int) + d.1 :=
        Int.toNat_of_nonneg h1
      omega
    · have hnc : (((e : Int) % (sz : Int) + d.2).toNat : Int) = (e : Int) % (sz : Int) + d.2 :=
        Int.toNat_of_nonneg h3
      omega
    · rw [Int.toNat_of_nonneg h1, Int.ofNat_ediv]
    · rw [Int.toNat_of_nonneg h3, Int.ofNat_emod]
  · exact absurd h (by simp)

theorem nbr_lt {sz e : Nat} {d : Int × Int} {ni : Nat}
    (he : e < sz * sz) (h : neighborIdx sz e d = some ni) : ni < sz * sz := by
  obtain ⟨r, c, nr, nc, _, _, _, hni, hnr, hnc, _, _⟩ := nbr_dest he h
  have h1 : nr + 1 ≤ sz := hnr
  have h2 : (nr + 1) * sz ≤ sz * sz := Nat.mul_le_mul_right sz h1
  have h3 : (nr + 1) * sz = nr * sz + sz := by ring
  omega

theorem nbr_ne {sz e : Nat} {d : Int × Int} {ni : Nat} (hd : d ∈ dir4)
    (he : e < sz * sz) (h : neighborIdx sz e d = some ni) : ni ≠ e := by
  obtain ⟨r, c, nr, nc, hrc, hr, hc, hni, hnr, hnc, hd1, hd2⟩ := nbr_dest he h
  have hsz : 0 < sz := by omega
  simp only [dir4, List.mem_cons, List.not_mem_nil, or_false] at hd
  rcases hd with rfl | rfl | rfl | rfl <;> dsimp only at hd1 hd2
  · have hr1 : (nr : Int) + 1 = r := by omega
    have hre : nr + 1 = r := by omega
    have : (nr + 1) * sz = nr * sz + sz := by ring
    rw [← hre] at hrc
    omega
  · have hre : nr = r + 1 := by omega
    have : (r + 1) * sz = r * sz + sz := by ring
    rw [hre] at hni
    omega
  · have hre : nr = r := by omega
    have hce : nc + 1 = c := by omega
    rw [hre] at hni
    omega
  · have hre : nr = r := by omega
    have hce : nc = c + 1 := by omega
    rw [hre] at hni
    omega

theorem nbr_rev {sz e : Nat} {d : Int × Int} {ni : Nat} (hd : d ∈ dir4)
    (he : e < sz * sz) (h : neighborIdx sz e d = some ni) :
    (-d.1, -d.2) ∈ dir4 ∧ neighborIdx sz ni (-d.1, -d.2) = some e := by
  obtain ⟨r, c, nr, nc, hrc, hr, hc, hni, hnr, hnc, hd1, hd2⟩ := nbr_dest he h
  have hsz : 0 < sz := by omega
  have hdiv : ni / sz = nr := by
    rw [hni, Nat.add_comm, Nat.add_mul_div_right _ _ hsz, Nat.div_eq_of_lt hnc, Nat.zero_add]
  have hmod : ni % sz = nc := by
    rw [hni, Nat.add_comm, Nat.add_mul_mod_self_right, Nat.mod_eq_of_lt hnc]
  have hdivI : (ni : Int) / (sz : Int) = (nr : Int) := by
    rw [← Int.ofNat_ediv, hdiv]
  have hmodI : (ni : Int) % (sz : Int) = (nc : Int) := by
    rw [← Int.ofNat_emod, hmod]
  constructor
  · simp only [dir4, List.mem_cons, List.not_mem_nil, or_false] at hd ⊢
    rcases hd with rfl | rfl | rfl | rfl <;> simp
  · unfold neighborIdx
    simp only [hdivI, hmodI]
    have hcond : 0 ≤ (nr : Int) + -d.1 ∧ (nr : Int) + -d.1 < (sz : Int) ∧
        0 ≤ (nc : Int) + -d.2 ∧ (nc : Int) + -d.2 < (sz : Int) := by
      refine ⟨by omega, by omega, by omega, by omega⟩
    rw [if_pos hcond]
    congr 1
    have h1 : (nr : Int) + -d.1 = (r : Int) := by omega
    have h2 : (nc : Int) + -d.2 = (c : Int) := by omega
    rw [h1, h2]
    have : (r : Int) * (sz : Int) + (c : Int) = ((r * sz + c : Nat) : Int) := by push_cast; ring
    rw [this, Int.toNat_ofNat, ← hrc]

/-! ### Board validity and move mechanics -/

theorem ValidBoard.tiles_length {sz : Nat} {s : PuzzleState} (h : ValidBoard sz s) :
    s.tiles.length = sz * sz := by
  have := h.2.1.length_eq
  simpa using this

theorem ValidBoard.tiles_nodup {sz : Nat} {s : PuzzleState} (h : ValidBoard sz s) :
    s.tiles.Nodup :=
  h.2.1.nodup_iff.mpr (List.nodup_range _)

theorem ValidBoard.count_eq {sz : Nat} {s : PuzzleState} (h : ValidBoard sz s) (v : Nat) :
    List.count v s.tiles = if v < sz * sz then 1 else 0 := by
  rw [h.2.1.count_eq, count_range_eq]

theorem ValidBoard.zero_unique {sz : Nat} {s : PuzzleState} (h : ValidBoard sz s) {k : Nat}
    (hk : k < sz * sz) (hz : s.tiles.getD k 0 = 0) : k = s.empty.toNat := by
  have hlen := h.tiles_length
  have helt : s.empty.toNat < sz * sz := h.2.2.2.1
  have hgd : s.tiles.getD s.empty.toNat 0 = 0 := h.2.2.2.2
  have h1 : s.tiles[k] = 0 := (List.getD_eq_getElem s.tiles 0 (by omega)).symm.trans hz
  have h2 : s.tiles[s.empty.toNat] = 0 :=
    (List.getD_eq_getElem s.tiles 0 (by omega)).symm.trans hgd
  have h3 : s.tiles[k] = s.tiles[s.empty.toNat] := by rw [h1, h2]
  exact (List.Nodup.getElem_inj_iff h.tiles_nodup).mp h3

theorem valid_step {sz : Nat} {s : PuzzleState} {d : Int × Int} {ni : Nat}
    (hv : ValidBoard sz s) (hd : d ∈ dir4)
    (hn : neighborIdx sz s.empty.toNat d = some ni) :
    ValidBoard sz (⟨swapL s.tiles s.empty.toNat ni, s.size, (ni : Int)⟩ : PuzzleState) := by
  obtain ⟨hsz, hperm, he0, helt, hgd⟩ := hv
  have hlen : s.tiles.length = sz * sz := by simpa using hperm.length_eq
  have hni : ni < sz * sz := nbr_lt helt hn
  refine ⟨hsz, ?_, by positivity, ?_, ?_⟩
  · have hp1 : (swapL s.tiles s.empty.toNat ni).Perm s.tiles := swapL_perm (by omega) (by omega)
    exact hp1.trans hperm
  · simpa using hni
  · simp only [Int.toNat_ofNat]
    rw [swapL_getD_snd (by omega)]
    exact hgd

theorem step_moved_val {sz : Nat} {s : PuzzleState} {d : Int × Int} {ni : Nat}
    (hv : ValidBoard sz s) (hd : d ∈ dir4)
    (hn : neighborIdx sz s.empty.toNat d = some ni) :
    (swapL s.tiles s.empty.toNat ni).getD s.empty.toNat 0 = s.tiles.getD ni 0 := by
  have hne : ni ≠ s.empty.toNat := nbr_ne hd hv.2.2.2.1 hn
  have h1 := hv.tiles_length
  have h2 : s.empty.toNat < sz * sz := hv.2.2.2.1
  exact swapL_getD_fst (Ne.symm hne) (by omega)

theorem apply_move_eq_step {sz : Nat} {s : PuzzleState} {d : Int × Int} {ni : Nat}
    (hv : ValidBoard sz s) (hd : d ∈ dir4)
    (hn : neighborIdx sz s.empty.toNat d = some ni) :
    apply_move s (s.tiles.getD ni 0) =
      (⟨swapL s.tiles s.empty.toNat ni, s.size, (ni : Int)⟩ : PuzzleState) := by
  have hlen : s.tiles.length = sz * sz := hv.tiles_length
  have hni : ni < sz * sz := nbr_lt hv.2.2.2.1 hn
  have hfr : lastIdxOf s.tiles (s.tiles.getD ni 0) (s.size * s.size) = (ni : Int) := by
    rw [hv.1]
    exact lastIdxOf_eq hv.tiles_nodup hlen hni rfl
  unfold apply_move
  dsimp only
  rw [hfr, if_pos (by positivity)]
  simp only [Int.toNat_ofNat]

theorem legalPath_replay {sz : Nat} {locked : List Nat} {s : PuzzleState} {ms : List Nat}
    {s' : PuzzleState} (hp : LegalPath sz locked s ms s') (hv : ValidBoard sz s) :
    apply_moves s ms = s' ∧ ValidBoard sz s' := by
  induction hp with
  | nil t => exact ⟨rfl, hv⟩
  | cons t d ni ms s' hd hn hnl hrest ih =>
    have hstep := valid_step hv hd hn
    have hmv := step_moved_val hv hd hn
    have h1 : apply_moves t ((swapL t.tiles t.empty.toNat ni).getD t.empty.toNat 0 :: ms) =
        apply_moves (apply_move t ((swapL t.tiles t.empty.toNat ni).getD t.empty.toNat 0)) ms :=
      rfl
    rw [h1, hmv, apply_move_eq_step hv hd hn]
    exact ih hstep

theorem legalPath_locked {sz : Nat} {locked : List Nat} {s : PuzzleState} {ms : List Nat}
    {s' : PuzzleState} (hp : LegalPath sz locked s ms s') (he : s.empty.toNat ∉ locked) :
    (∀ j ∈ locked, s'.tiles.getD j 0 = s.tiles.getD j 0) ∧ s'.empty.toNat ∉ locked := by
  induction hp with
  | nil t => exact ⟨fun j _ => rfl, he⟩
  | cons t d ni ms s' hd hn hnl hrest ih =>
    have he1 : (⟨swapL t.tiles t.empty.toNat ni, t.size, (ni : Int)⟩ :
        PuzzleState).empty.toNat ∉ locked := by
      simpa using hnl
    obtain ⟨ih1, ih2⟩ := ih he1
    refine ⟨?_, ih2⟩
    intro j hj
    rw [ih1 j hj]
    exact swapL_getD_other (fun hje => he (hje ▸ hj)) (fun hjn => hnl (hjn ▸ hj))

theorem legalPath_append {sz : Nat} {locked : List Nat} :
    ∀ {s : PuzzleState} {m1 : List Nat} {mid : PuzzleState} {m2 : List Nat} {s' : PuzzleState},
      LegalPath sz locked s m1 mid → LegalPath sz locked mid m2 s' →
      LegalPath sz locked s (m1 ++ m2) s' := by
  intro s m1 mid m2 s' h1 h2
  induction h1 with
  | nil t => exact h2
  | cons t d ni ms s1 hd hn hnl hrest ih =>
    exact LegalPath.cons t d ni _ _ hd hn hnl (ih h2)

theorem legalPath_split {sz : Nat} {locked : List Nat} :
    ∀ (m1 : List Nat) {s : PuzzleState} {m2 : List Nat} {s' : PuzzleState},
      LegalPath sz locked s (m1 ++ m2) s' →
      ∃ mid, LegalPath sz locked s m1 mid ∧ LegalPath sz locked mid m2 s' := by
  intro m1
  induction m1 with
  | nil => exact fun h => ⟨_, LegalPath.nil _, h⟩
  | cons x t ih =>
    intro s m2 s' h
    cases h with
    | cons _ d ni _ _ hd hn hnl hrest =>
      obtain ⟨mid, hm1, hm2⟩ := ih hrest
      exact ⟨mid, LegalPath.cons _ d ni _ _ hd hn hnl hm1, hm2⟩

theorem apply_moves_append (s : PuzzleState) (a b : List Nat) :
    apply_moves s (a ++ b) = apply_moves (apply_moves s a) b := by
  simp [apply_moves, List.foldl_append]

theorem apply_move_invol {sz : Nat} {s : PuzzleState} {d : Int × Int} {ni : Nat}
    (hv : ValidBoard sz s) (hd : d ∈ dir4)
    (hn : neighborIdx sz s.empty.toNat d = some ni) :
    apply_move (⟨swapL s.tiles s.empty.toNat ni, s.size, (ni : Int)⟩ : PuzzleState)
      (s.tiles.getD ni 0) = s := by
  have hs1 : ValidBoard sz
      (⟨swapL s.tiles s.empty.toNat ni, s.size, (ni : Int)⟩ : PuzzleState) :=
    valid_step hv hd hn
  have hlen := hv.tiles_length
  have he : s.empty.toNat < sz * sz := hv.2.2.2.1
  have hni : ni < sz * sz := nbr_lt he hn
  have hval : (swapL s.tiles s.empty.toNat ni).getD s.empty.toNat 0 = s.tiles.getD ni 0 :=
    step_moved_val hv hd hn
  have hfr : lastIdxOf (swapL s.tiles s.empty.toNat ni) (s.tiles.getD ni 0)
      (s.size * s.size) = ((s.empty.toNat : Nat) : Int) := by
    rw [hv.1]
    exact lastIdxOf_eq hs1.tiles_nodup (by rw [swapL_length]; exact hlen) (by omega) hval
  unfold apply_move
  dsimp only
  rw [hfr, if_pos (by positivity)]
  have hsw : swapL (swapL s.tiles s.empty.toNat ni) ((ni : Int)).toNat
      ((s.empty.toNat : Nat) : Int).toNat = s.tiles := by
    simp only [Int.toNat_ofNat]
    exact swapL_involution (by omega) (by omega)
  rw [hsw]
  have hemp : ((s.empty.toNat : Nat) : Int) = s.empty := Int.toNat_of_nonneg hv.2.2.1
  rw [hemp]

theorem legalPath_roundtrip {sz : Nat} {s : PuzzleState} {ms : List Nat} {s' : PuzzleState}
    (hp : LegalPath sz [] s ms s') : ValidBoard sz s → apply_moves s' ms.reverse = s := by
  induction hp with
  | nil t => intro hv; rfl
  | cons t d ni ms s' hd hn hnl hrest ih =>
    intro hv
    have hstep := valid_step hv hd hn
    rw [List.reverse_cons, apply_moves_append, ih hstep]
    have h1 : apply_moves (⟨swapL t.tiles t.empty.toNat ni, t.size, (ni : Int)⟩ : PuzzleState)
        [(swapL t.tiles t.empty.toNat ni).getD t.empty.toNat 0] =
        apply_move (⟨swapL t.tiles t.empty.toNat ni, t.size, (ni : Int)⟩ : PuzzleState)
          ((swapL t.tiles t.empty.toNat ni).getD t.empty.toNat 0) := rfl
    rw [h1, step_moved_val hv hd hn]
    exact apply_move_invol hv hd hn

/-! ### Solvedness and the Manhattan heuristic -/

theorem isSolved_iff {sz : Nat} {s : PuzzleState} (h : s.size = sz) :
    s.isSolved = true ↔
      (∀ i < sz * sz - 1, s.tiles.getD i 0 = i + 1) ∧ s.tiles.getD (sz * sz - 1) 0 = 0 := by
  simp [PuzzleState.isSolved, h, List.all_eq_true, List.mem_range, beq_iff_eq]

theorem manhattan_eq_zero_iff {sz : Nat} {s : PuzzleState} (hv : ValidBoard sz s) :
    manhattan s = 0 ↔ s.isSolved = true := by
  have hlen := hv.tiles_length
  have he : s.empty.toNat < sz * sz := hv.2.2.2.1
  have hgd : s.tiles.getD s.empty.toNat 0 = 0 := hv.2.2.2.2
  have hsz : 0 < sz := by
    rcases Nat.eq_zero_or_pos sz with rfl | h
    · simp at he
    · exact h
  unfold manhattan
  rw [hv.1, natSum_eq_zero_iff]
  constructor
  · intro hall
    have hterm : ∀ i, i ∈ List.range (sz * sz) →
        (fun i =>
          let v := s.tiles.getD i 0
          if v = 0 then 0
          else
            let gi := v - 1
            (((gi / sz : Nat) : Int) - ((i / sz : Nat) : Int)).natAbs +
              (((gi % sz : Nat) : Int) - ((i % sz : Nat) : Int)).natAbs) i = 0 :=
      fun i hi => hall _ (List.mem_map_of_mem _ hi)
    have hplace : ∀ i, i < sz * sz → s.tiles.getD i 0 ≠ 0 → s.tiles.getD i 0 = i + 1 := by
      intro i hi hv0
      have h0 := hterm i (List.mem_range.mpr hi)
      simp only [if_neg hv0] at h0
      have h1 : ((((s.tiles.getD i 0 - 1) / sz : Nat) : Int) - ((i / sz : Nat) : Int)).natAbs
          = 0 := by omega
      have h2 : ((((s.tiles.getD i 0 - 1) % sz : Nat) : Int) - ((i % sz : Nat) : Int)).natAbs
          = 0 := by omega
      have h3 : (s.tiles.getD i 0 - 1) / sz = i / sz := by
        have := Int.natAbs_eq_zero.mp h1
        omega
      have h4 : (s.tiles.getD i 0 - 1) % sz = i % sz := by
        have := Int.natAbs_eq_zero.mp h2
        omega
      have h5 := Nat.div_add_mod (s.tiles.getD i 0 - 1) sz
      have h6 := Nat.div_add_mod i sz
      rw [h3, h4] at h5
      omega
    have hlast : s.empty.toNat = sz * sz - 1 := by
      by_contra hne
      have hlt : s.empty.toNat + 1 < sz * sz := by omega
      have hcnt : List.count (s.empty.toNat + 1) s.tiles = 1 := by
        rw [hv.count_eq, if_pos (by omega)]
      have hmem : (s.empty.toNat + 1) ∈ s.tiles := by
        rw [← List.count_pos_iff, hcnt]
        omega
      obtain ⟨p, hp, hpe⟩ := List.mem_iff_getElem.mp hmem
      have hpd : s.tiles.getD p 0 = s.empty.toNat + 1 := by
        rw [List.getD_eq_getElem s.tiles 0 hp]
        exact hpe
      have hpp : s.tiles.getD p 0 = p + 1 := hplace p (by omega) (by omega)
      have hpe2 : p = s.empty.toNat := by omega
      rw [hpe2] at hpd
      rw [hgd] at hpd
      omega
    rw [isSolved_iff hv.1]
    constructor
    · intro i hi
      have hne : s.tiles.getD i 0 ≠ 0 := by
        intro h0
        have := hv.zero_unique (k := i) (by omega) h0
        omega
      exact hplace i (by omega) hne
    · rw [← hlast]
      exact hgd
  · intro hs
    rw [isSolved_iff hv.1] at hs
    intro x hx
    obtain ⟨i, hi, rfl⟩ := List.mem_map.mp hx
    have hi' : i < sz * sz := List.mem_range.mp hi
    rcases Nat.lt_or_ge i (sz * sz - 1) with hlt | hge
    · have hval : s.tiles.getD i 0 = i + 1 := hs.1 i hlt
      simp only [hval]
      rw [if_neg (by omega)]
      simp
    · have hie : i = sz * sz - 1 := by omega
      rw [hie, hs.2]
      simp

theorem goalTiles_getD (sz j : Nat) :
    (goalTiles sz).getD j 0 = if j < sz * sz - 1 then j + 1 else 0 := by
  unfold goalTiles
  rcases eq_or_ne j (sz * sz - 1) with rfl | hne
  · rw [if_neg (by omega)]
    rcases Nat.eq_zero_or_pos (sz * sz) with h0 | hpos
    · rw [List.set_eq_of_length_le (by rw [foldSet_length]; omega), foldSet_getD,
        if_neg (by omega)]
    · rw [getD_set_self (by rw [foldSet_length]; omega)]
  · rw [getD_set_ne (Ne.symm hne), foldSet_getD]
    rcases Nat.lt_or_ge j (sz * sz - 1) with h | h
    · rw [if_pos ⟨h, by omega⟩, if_pos h]
    · rw [if_neg (by omega), if_neg (by omega)]

theorem goal_isSolved (sz : Nat) (e : Int) :
    (⟨goalTiles sz, sz, e⟩ : PuzzleState).isSolved = true := by
  rw [isSolved_iff rfl]
  constructor
  · intro i hi
    show (goalTiles sz).getD i 0 = i + 1
    rw [goalTiles_getD, if_pos hi]
  · show (goalTiles sz).getD (sz * sz - 1) 0 = 0
    rw [goalTiles_getD, if_neg (by omega)]

theorem tiles_isSolved {sz : Nat} {s t : PuzzleState} (hst : s.tiles = t.tiles)
    (hss : s.size = t.size) (h : t.isSolved = true) : s.isSolved = true := by
  unfold PuzzleState.isSolved at h ⊢
  rw [hst, hss]
  exact h

theorem pdbInit_getD (sz ntiles j : Nat) (hn : ntiles ≤ sz * sz) :
    (pdbInitTiles sz ntiles).getD j 0 =
      if j = sz * sz - 1 then 0 else if j < ntiles then j + 1 else 0 := by
  unfold pdbInitTiles
  rcases eq_or_ne j (sz * sz - 1) with rfl | hne
  · rw [if_pos rfl]
    rcases Nat.eq_zero_or_pos (sz * sz) with h0 | hpos
    · rw [List.set_eq_of_length_le (by rw [foldSet_length]; omega), foldSet_getD,
        if_neg (by omega)]
    · rw [getD_set_self (by rw [foldSet_length]; omega)]
  · rw [if_neg hne, getD_set_ne (Ne.symm hne), foldSet_getD]
    rcases Nat.lt_or_ge j ntiles with h | h
    · rw [if_pos ⟨h, by omega⟩, if_pos h]
    · rw [if_neg (by omega), if_neg (by omega)]

theorem mkState_tiles {arr : List Nat} {sz : Nat} (hlen : arr.length = sz * sz) :
    (mkState arr sz).tiles = arr := by
  simp [mkState, List.take_of_length_le (le_of_eq hlen)]

/-! ### The pattern databases are singletons -/

theorem pdbInit_length (sz ntiles : Nat) : (pdbInitTiles sz ntiles).length = sz * sz := by
  unfold pdbInitTiles
  rw [List.length_set, foldSet_length]

theorem build_pdb_go_empty (sz ntiles maxd f : Nat) (seen : List (List Nat)) (pdb : Pdb) :
    build_pdb_go sz ntiles maxd f [] seen pdb = pdb := by
  cases f <;> rfl

theorem lastZero_pdbInit (sz ntiles : Nat) (hsz : 1 ≤ sz) (hn : ntiles ≤ sz * sz) :
    lastZeroIdx (pdbInitTiles sz ntiles) (sz * sz) = ((sz * sz - 1 : Nat) : Int) := by
  have h1 : 1 * 1 ≤ sz * sz := Nat.mul_le_mul hsz hsz
  refine lastZeroIdx_last _ _ (by omega) ?_
  rw [pdbInit_getD _ _ _ hn, if_pos rfl]

theorem pdbStep_init (sz ntiles dep : Nat) (h2 : 2 ≤ sz) (hn : ntiles ≤ sz * sz)
    (d : Int × Int) (hd : d ∈ dir4) :
    pdbStep sz ntiles (pdbInitTiles sz ntiles) dep (sz * sz - 1)
      ([], [pdbInitTiles sz ntiles]) d = ([], [pdbInitTiles sz ntiles]) := by
  unfold pdbStep
  have h4 : 2 * 2 ≤ sz * sz := Nat.mul_le_mul h2 h2
  cases hni : neighborIdx sz (sz * sz - 1) d with
  | none => rfl
  | some ni =>
    have hlt : ni < sz * sz := nbr_lt (by omega) hni
    have hne : ni ≠ sz * sz - 1 := nbr_ne hd (by omega) hni
    have hlen : (pdbInitTiles sz ntiles).length = sz * sz := pdbInit_length sz ntiles
    have hgE : (pdbInitTiles sz ntiles).getD (sz * sz - 1) 0 = 0 := by
      rw [pdbInit_getD _ _ _ hn, if_pos rfl]
    dsimp only
    rcases Nat.lt_or_ge ni ntiles with hcase | hcase
    · have hbad : (swapL (pdbInitTiles sz ntiles) (sz * sz - 1) ni).getD ni 0 = 0 := by
        rw [swapL_getD_snd (by omega)]
        exact hgE
      have hall : ((List.range ntiles).all
          fun i => (swapL (pdbInitTiles sz ntiles) (sz * sz - 1) ni).getD i 0 == i + 1)
          = false := by
        rw [List.all_eq_false]
        refine ⟨ni, List.mem_range.mpr hcase, ?_⟩
        rw [hbad]
        simp
      rw [hall]
      simp
    · have hgN : (pdbInitTiles sz ntiles).getD ni 0 = 0 := by
        rw [pdbInit_getD _ _ _ hn, if_neg hne, if_neg (by omega)]
      have hswap : swapL (pdbInitTiles sz ntiles) (sz * sz - 1) ni = pdbInitTiles sz ntiles := by
        unfold swapL
        rw [hgN, hgE]
        have t1 : (pdbInitTiles sz ntiles).set (sz * sz - 1) 0 = pdbInitTiles sz ntiles := by
          have h := set_getD_self (pdbInitTiles sz ntiles) (sz * sz - 1)
          rwa [hgE] at h
        rw [t1]
        have t2 := set_getD_self (pdbInitTiles sz ntiles) ni
        rwa [hgN] at t2
      rw [hswap]
      by_cases hall : ((List.range ntiles).all
          fun i => (pdbInitTiles sz ntiles).getD i 0 == i + 1) = true
      · rw [if_pos hall, if_pos (by simp)]
      · rw [if_neg hall]

theorem build_pdb_singleton (sz ntiles maxd : Nat) (h2 : 2 ≤ sz) (hn : ntiles ≤ sz * sz) :
    build_pdb sz ntiles maxd = [(pdbInitTiles sz ntiles, 0)] := by
  have h4 : 2 * 2 ≤ sz * sz := Nat.mul_le_mul h2 h2
  have hpdb : pdbSet [] (pdbInitTiles sz ntiles) 0 = [(pdbInitTiles sz ntiles, 0)] := by
    simp [pdbSet, List.lookup]
  have hlz : (lastZeroIdx (pdbInitTiles sz ntiles) (sz * sz)).toNat = sz * sz - 1 := by
    rw [lastZero_pdbInit sz ntiles (by omega) hn]
    simp
  unfold build_pdb
  simp only [build_pdb_go]
  rw [hpdb, hlz]
  by_cases hmd : 0 ≥ maxd
  · rw [if_pos hmd, build_pdb_go_empty]
  · rw [if_neg hmd]
    have hfold : dir4.foldl (pdbStep sz ntiles (pdbInitTiles sz ntiles) 0 (sz * sz - 1))
        ([], [pdbInitTiles sz ntiles]) = ([], [pdbInitTiles sz ntiles]) := by
      simp only [dir4, List.foldl_cons, List.foldl_nil]
      rw [pdbStep_init sz ntiles 0 h2 hn (-1, 0) (by simp [dir4]),
        pdbStep_init sz ntiles 0 h2 hn (1, 0) (by simp [dir4]),
        pdbStep_init sz ntiles 0 h2 hn (0, -1) (by simp [dir4]),
        pdbStep_init sz ntiles 0 h2 hn (0, 1) (by simp [dir4])]
    rw [hfold]
    rw [List.nil_append, build_pdb_go_empty]

theorem valid_ne_pdbInit {sz ntiles : Nat} {s : PuzzleState} (hv : ValidBoard sz s)
    (h2 : 2 ≤ sz) (hn : ntiles + 2 ≤ sz * sz) : s.tiles ≠ pdbInitTiles sz ntiles := by
  intro he
  have h4 : 2 * 2 ≤ sz * sz := Nat.mul_le_mul h2 h2
  have z1 : s.tiles.getD (sz * sz - 1) 0 = 0 := by
    rw [he, pdbInit_getD _ _ _ (by omega), if_pos rfl]
  have z2 : s.tiles.getD (sz * sz - 2) 0 = 0 := by
    rw [he, pdbInit_getD _ _ _ (by omega), if_neg (by omega), if_neg (by omega)]
  have e1 := hv.zero_unique (k := sz * sz - 1) (by omega) z1
  have e2 := hv.zero_unique (k := sz * sz - 2) (by omega) z2
  omega

theorem pdbh_stage1_eq_manhattan {g : Globals} {sz : Nat} {s : PuzzleState}
    (hv : ValidBoard sz s)
    (h4 : sz = 4 → g.pdb4s1 = build_pdb 4 6 14)
    (h5 : sz = 5 → g.pdb5s1 = build_pdb 5 12 16)
    (hsz : sz = 4 ∨ sz = 5) :
    pdb_heuristic g s 1 sz = manhattan s := by
  rcases hsz with rfl | rfl
  · have hne : s.tiles ≠ pdbInitTiles 4 6 := valid_ne_pdbInit hv (by omega) (by omega)
    have hlook : (g.pdb4s1.lookup s.tiles) = none := by
      rw [h4 rfl, build_pdb_singleton 4 6 14 (by omega) (by omega)]
      have hb : (s.tiles == pdbInitTiles 4 6) = false := beq_eq_false_iff_ne.mpr hne
      simp [List.lookup, hb]
    unfold pdb_heuristic
    dsimp only
    rw [hlook]
    simp
  · have hne : s.tiles ≠ pdbInitTiles 5 12 := valid_ne_pdbInit hv (by omega) (by omega)
    have hlook : (g.pdb5s1.lookup s.tiles) = none := by
      rw [h5 rfl, build_pdb_singleton 5 12 16 (by omega) (by omega)]
      have hb : (s.tiles == pdbInitTiles 5 12) = false := beq_eq_false_iff_ne.mpr hne
      simp [List.lookup, hb]
    unfold pdb_heuristic
    dsimp only
    rw [hlook]
    simp

/-! ### Properties of the depth-first search of ida_star -/

theorem dfs_overbudget (g : Globals) (sz stage node_limit : Nat) (locked : List Nat)
    (threshold : Int) (fuel : Nat) (s : PuzzleState) (gdep : Nat) (pe : Int) (ctx : DfsCtx)
    (h : ctx.nodes ≥ node_limit) :
    dfsGo g sz stage node_limit locked threshold fuel s gdep pe ctx =
      (intMax, { ctx with nodes := ctx.nodes + 1, failReason := "node_limit" }) := by
  cases fuel with
  | zero => rfl
  | succ f =>
    simp only [dfsGo]
    rw [if_pos (by omega)]

theorem dfs_nodes_mono (g : Globals) (sz stage node_limit : Nat) (locked : List Nat)
    (threshold : Int) :
    ∀ (fuel : Nat) (s : PuzzleState) (gdep : Nat) (pe : Int) (ctx : DfsCtx),
      ctx.nodes + 1 ≤ (dfsGo g sz stage node_limit locked threshold fuel s gdep pe ctx).2.nodes := by
  intro fuel
  induction fuel with
  | zero => intro s gdep pe ctx; simp [dfsGo]
  | succ f ih =>
    intro s gdep pe ctx
    simp only [dfsGo]
    by_cases h1 : ctx.nodes + 1 > node_limit
    · rw [if_pos h1]
    · rw [if_neg h1]
      split
      all_goals
        split
      any_goals exact Nat.le_refl _
      all_goals
        split
      any_goals exact Nat.le_refl _
      all_goals
        refine List.foldlRecOn (motive := fun (acc : Int × DfsCtx) =>
          ctx.nodes + 1 ≤ acc.2.nodes) dir4 _ _ (Nat.le_refl _) ?_
        intro b hb a ha
        unfold dfsStep
        dsimp only
        split
        · exact hb
        · split
          · exact hb
          · rename_i ni _
            split
            · exact hb
            · split
              · exact hb
              · split
                · exact hb
                · have hrec := ih (⟨swapL s.tiles s.empty.toNat ni, s.size, (ni : Int)⟩ :
                    PuzzleState) (gdep + 1) s.empty
                    { b.2 with path := b.2.path ++
                      [(swapL s.tiles s.empty.toNat ni).getD s.empty.toNat 0] }
                  split
                  · dsimp only at hrec ⊢
                    omega
                  · dsimp only at hrec ⊢
                    omega

theorem dfs_found_mono (g : Globals) (sz stage node_limit : Nat) (locked : List Nat)
    (threshold : Int) :
    ∀ (fuel : Nat) (s : PuzzleState) (gdep : Nat) (pe : Int) (ctx : DfsCtx),
      ctx.found = true →
      (dfsGo g sz stage node_limit locked threshold fuel s gdep pe ctx).2.found = true := by
  intro fuel
  induction fuel with
  | zero => intro s gdep pe ctx h; simpa [dfsGo] using h
  | succ f ih =>
    intro s gdep pe ctx h
    simp only [dfsGo]
    by_cases h1 : ctx.nodes + 1 > node_limit
    · rw [if_pos h1]
      exact h
    · rw [if_neg h1]
      split
      all_goals split_ifs
      any_goals exact h
      any_goals rfl
      all_goals
        refine List.foldlRecOn (motive := fun (acc : Int × DfsCtx) => acc.2.found = true)
          dir4 _ _ h ?_
        intro b hb a ha
        unfold dfsStep
        rw [if_pos hb]
        exact hb

theorem dfs_found_mono_contra (g : Globals) (sz stage node_limit : Nat) (locked : List Nat)
    (threshold : Int) (fuel : Nat) (s : PuzzleState) (gdep : Nat) (pe : Int) (ctx : DfsCtx)
    (h : (dfsGo g sz stage node_limit locked threshold fuel s gdep pe ctx).2.found = false) :
    ctx.found = false := by
  by_contra hc
  have := dfs_found_mono g sz stage node_limit locked threshold fuel s gdep pe ctx
    (by revert hc; cases ctx.found <;> simp)
  rw [h] at this
  exact Bool.false_ne_true this

theorem dfs_path_fold (g : Globals) (sz stage node_limit : Nat) (locked : List Nat)
    (threshold : Int) (f : Nat) (s : PuzzleState) (gdep : Nat) (pe : Int) (ctx1 : DfsCtx)
    (ih : ∀ (s0 : PuzzleState) (gd0 : Nat) (pe0 : Int) (c0 : DfsCtx),
      ((dfsGo g sz stage node_limit locked threshold f s0 gd0 pe0 c0).2.found = false →
        (dfsGo g sz stage node_limit locked threshold f s0 gd0 pe0 c0).2.path = c0.path) ∧
      (c0.found = false →
        (dfsGo g sz stage node_limit locked threshold f s0 gd0 pe0 c0).2.found = true →
        ∃ ms s', (dfsGo g sz stage node_limit locked threshold f s0 gd0 pe0 c0).2.path =
            c0.path ++ ms ∧ LegalPath sz locked s0 ms s' ∧ goalHit g stage sz s' = true)) :
    ((List.foldl (dfsStep sz locked s pe s.empty.toNat
        (fun nxt cx => dfsGo g sz stage node_limit locked threshold f nxt (gdep + 1)
          s.empty cx)) (intMax, ctx1) dir4).2.found = false →
      (List.foldl (dfsStep sz locked s pe s.empty.toNat
        (fun nxt cx => dfsGo g sz stage node_limit locked threshold f nxt (gdep + 1)
          s.empty cx)) (intMax, ctx1) dir4).2.path = ctx1.path) ∧
    (ctx1.found = false →
      (List.foldl (dfsStep sz locked s pe s.empty.toNat
        (fun nxt cx => dfsGo g sz stage node_limit locked threshold f nxt (gdep + 1)
          s.empty cx)) (intMax, ctx1) dir4).2.found = true →
      ∃ ms s', (List.foldl (dfsStep sz locked s pe s.empty.toNat
          (fun nxt cx => dfsGo g sz stage node_limit locked threshold f nxt (gdep + 1)
            s.empty cx)) (intMax, ctx1) dir4).2.path = ctx1.path ++ ms ∧
        LegalPath sz locked s ms s' ∧ goalHit g stage sz s' = true) := by
  refine List.foldlRecOn (motive := fun (acc : Int × DfsCtx) =>
    (acc.2.found = false → acc.2.path = ctx1.path) ∧
    (ctx1.found = false → acc.2.found = true →
      ∃ ms s', acc.2.path = ctx1.path ++ ms ∧ LegalPath sz locked s ms s' ∧
        goalHit g stage sz s' = true))
    dir4 _ _ ⟨fun _ => rfl, fun hc hf => absurd hf (by simp [hc])⟩ ?_
  intro b hb a ha
  unfold dfsStep
  by_cases hbf : b.2.found = true
  · rw [if_pos hbf]
    exact hb
  · rw [if_neg hbf]
    have hbf' : b.2.found = false := by revert hbf; cases b.2.found <;> simp
    cases hni : neighborIdx sz s.empty.toNat a with
    | none => simp only [hni]; exact hb
    | some ni =>
      simp only [hni]
      split_ifs with hlk hpe hsym htf
      · exact hb
      · exact hb
      · exact hb
      · obtain ⟨ih1, ih2⟩ := ih (⟨swapL s.tiles s.empty.toNat ni, s.size, (ni : Int)⟩ :
          PuzzleState) (gdep + 1) s.empty
          { b.2 with path := b.2.path ++
            [(swapL s.tiles s.empty.toNat ni).getD s.empty.toNat 0] }
        refine ⟨fun h' => absurd (htf.symm.trans h') (by simp), fun hcf _ => ?_⟩
        obtain ⟨ms', s', hpath, hlp, hgl⟩ := ih2 hbf' htf
        have hbp : b.2.path = ctx1.path := hb.1 hbf'
        refine ⟨(swapL s.tiles s.empty.toNat ni).getD s.empty.toNat 0 :: ms', s', ?_, ?_, hgl⟩
        · rw [hpath]
          dsimp only
          rw [hbp]
          simp
        · exact LegalPath.cons s a ni ms' s' ha hni hlk hlp
      · obtain ⟨ih1, ih2⟩ := ih (⟨swapL s.tiles s.empty.toNat ni, s.size, (ni : Int)⟩ :
          PuzzleState) (gdep + 1) s.empty
          { b.2 with path := b.2.path ++
            [(swapL s.tiles s.empty.toNat ni).getD s.empty.toNat 0] }
        have htf' : (dfsGo g sz stage node_limit locked threshold f
            (⟨swapL s.tiles s.empty.toNat ni, s.size, (ni : Int)⟩ : PuzzleState) (gdep + 1)
            s.empty { b.2 with path := b.2.path ++
              [(swapL s.tiles s.empty.toNat ni).getD s.empty.toNat 0] }).2.found = false := by
          revert htf
          cases hx : (dfsGo g sz stage node_limit locked threshold f
            (⟨swapL s.tiles s.empty.toNat ni, s.size, (ni : Int)⟩ : PuzzleState) (gdep + 1)
            s.empty { b.2 with path := b.2.path ++
              [(swapL s.tiles s.empty.toNat ni).getD s.empty.toNat 0] }).2.found <;> simp
        refine ⟨fun _ => ?_, fun hcf h' => absurd (htf'.symm.trans h') (by simp)⟩
        have hp := ih1 htf'
        dsimp only
        rw [hp]
        dsimp only
        rw [List.dropLast_concat]
        exact hb.1 hbf'

theorem dfs_path (g : Globals) (sz stage node_limit : Nat) (locked : List Nat)
    (threshold : Int) :
    ∀ (fuel : Nat) (s : PuzzleState) (gdep : Nat) (pe : Int) (ctx : DfsCtx),
      ((dfsGo g sz stage node_limit locked threshold fuel s gdep pe ctx).2.found = false →
        (dfsGo g sz stage node_limit locked threshold fuel s gdep pe ctx).2.path = ctx.path) ∧
      (ctx.found = false →
        (dfsGo g sz stage node_limit locked threshold fuel s gdep pe ctx).2.found = true →
        ∃ ms s', (dfsGo g sz stage node_limit locked threshold fuel s gdep pe ctx).2.path =
            ctx.path ++ ms ∧ LegalPath sz locked s ms s' ∧ goalHit g stage sz s' = true) := by
  intro fuel
  induction fuel with
  | zero =>
    intro s gdep pe ctx
    exact ⟨fun _ => rfl, fun hf hf' => absurd hf' (by simp [dfsGo, hf])⟩
  | succ f ih =>
    intro s gdep pe ctx
    simp only [dfsGo]
    by_cases h1 : ctx.nodes + 1 > node_limit
    · rw [if_pos h1]
      exact ⟨fun _ => rfl, fun hf hf' => absurd hf' (by simp [hf])⟩
    · rw [if_neg h1]
      split
      · rename_i hst
        split_ifs with hcut hgoal
        · exact ⟨fun _ => rfl, fun hf hf' => absurd hf' (by simp [hf])⟩
        · refine ⟨fun h' => by simp at h', fun hf _ => ⟨[], s, by simp, LegalPath.nil s, ?_⟩⟩
          unfold goalHit
          rw [if_pos hst]
          exact hgoal
        · exact dfs_path_fold g sz stage node_limit locked threshold f s gdep pe _ ih
      · rename_i hst
        split_ifs with hcut hgoal
        · exact ⟨fun _ => rfl, fun hf hf' => absurd hf' (by simp [hf])⟩
        · refine ⟨fun h' => by simp at h', fun hf _ => ⟨[], s, by simp, LegalPath.nil s, ?_⟩⟩
          unfold goalHit
          rw [if_neg hst]
          exact hgoal
        · exact dfs_path_fold g sz stage node_limit locked threshold f s gdep pe _ ih

theorem dfs_reason_fold (g : Globals) (sz stage node_limit : Nat) (locked : List Nat)
    (threshold : Int) (f : Nat) (s : PuzzleState) (gdep : Nat) (pe : Int) (ctx1 : DfsCtx)
    (hnodes1 : gdep + 1 ≤ ctx1.nodes)
    (hfuel : node_limit + 2 ≤ f + 1 + gdep)
    (ih : ∀ (s0 : PuzzleState) (gd0 : Nat) (pe0 : Int) (c0 : DfsCtx),
      gd0 ≤ c0.nodes → node_limit + 2 ≤ f + gd0 →
      ((dfsGo g sz stage node_limit locked threshold f s0 gd0 pe0 c0).2.failReason =
          c0.failReason ∨
        ((dfsGo g sz stage node_limit locked threshold f s0 gd0 pe0 c0).2.failReason =
            "node_limit" ∧
          (dfsGo g sz stage node_limit locked threshold f s0 gd0 pe0 c0).2.nodes > node_limit ∧
          (dfsGo g sz stage node_limit locked threshold f s0 gd0 pe0 c0).2.found = c0.found))) :
    ((List.foldl (dfsStep sz locked s pe s.empty.toNat
        (fun nxt cx => dfsGo g sz stage node_limit locked threshold f nxt (gdep + 1)
          s.empty cx)) (intMax, ctx1) dir4).2.failReason = ctx1.failReason ∨
      ((List.foldl (dfsStep sz locked s pe s.empty.toNat
          (fun nxt cx => dfsGo g sz stage node_limit locked threshold f nxt (gdep + 1)
            s.empty cx)) (intMax, ctx1) dir4).2.failReason = "node_limit" ∧
        (List.foldl (dfsStep sz locked s pe s.empty.toNat
          (fun nxt cx => dfsGo g sz stage node_limit locked threshold f nxt (gdep + 1)
            s.empty cx)) (intMax, ctx1) dir4).2.nodes > node_limit ∧
        (List.foldl (dfsStep sz locked s pe s.empty.toNat
          (fun nxt cx => dfsGo g sz stage node_limit locked threshold f nxt (gdep + 1)
            s.empty cx)) (intMax, ctx1) dir4).2.found = ctx1.found)) := by
  refine (List.foldlRecOn (motive := fun (acc : Int × DfsCtx) =>
    (acc.2.failReason = ctx1.failReason ∨
      (acc.2.failReason = "node_limit" ∧ acc.2.nodes > node_limit ∧
        acc.2.found = ctx1.found)) ∧
    ctx1.nodes ≤ acc.2.nodes ∧ (ctx1.found = true → acc.2.found = true))
    dir4 (dfsStep sz locked s pe s.empty.toNat
        (fun nxt cx => dfsGo g sz stage node_limit locked threshold f nxt (gdep + 1)
          s.empty cx)) (intMax, ctx1)
    ⟨Or.inl rfl, Nat.le_refl _, fun h => h⟩ ?_).1
  intro b hb a ha
  obtain ⟨hbr, hbn, hbfp⟩ := hb
  unfold dfsStep
  by_cases hbf : b.2.found = true
  · rw [if_pos hbf]
    exact ⟨hbr, hbn, hbfp⟩
  · rw [if_neg hbf]
    have hbf' : b.2.found = false := by revert hbf; cases b.2.found <;> simp
    have hcf : ctx1.found = false := by
      by_contra hc
      have : ctx1.found = true := by revert hc; cases ctx1.found <;> simp
      exact absurd (hbfp this) (by simp [hbf'])
    cases hni : neighborIdx sz s.empty.toNat a with
    | none => simp only [hni]; exact ⟨hbr, hbn, hbfp⟩
    | some ni =>
      simp only [hni]
      split_ifs with hlk hpe hsym htf
      · exact ⟨hbr, hbn, hbfp⟩
      · exact ⟨hbr, hbn, hbfp⟩
      · exact ⟨hbr, hbn, hbfp⟩
      all_goals
        have hihn : gdep + 1 ≤ ({ b.2 with path := b.2.path ++
            [(swapL s.tiles s.empty.toNat ni).getD s.empty.toNat 0] } : DfsCtx).nodes := by
          dsimp only
          omega
        have hihf : node_limit + 2 ≤ f + (gdep + 1) := by omega
        have hrec := ih (⟨swapL s.tiles s.empty.toNat ni, s.size, (ni : Int)⟩ : PuzzleState)
          (gdep + 1) s.empty
          { b.2 with path := b.2.path ++
            [(swapL s.tiles s.empty.toNat ni).getD s.empty.toNat 0] } hihn hihf
        have hrecn := dfs_nodes_mono g sz stage node_limit locked threshold f
          (⟨swapL s.tiles s.empty.toNat ni, s.size, (ni : Int)⟩ : PuzzleState)
          (gdep + 1) s.empty
          { b.2 with path := b.2.path ++
            [(swapL s.tiles s.empty.toNat ni).getD s.empty.toNat 0] }
      -- recursive call reported a goal: result is (-1, tc.2)
      · rcases hbr with hbl | ⟨hbr2a, hbr2b, hbr2c⟩
        · rcases hrec with hrl | hrr
          · refine ⟨Or.inl ?_, ?_, fun _ => htf⟩
            · dsimp only at hrl ⊢
              rw [hrl]
              exact hbl
            · dsimp only at hrecn ⊢
              omega
          · exact absurd (htf.symm.trans (hrr.2.2.trans hbf')) (by simp)
        · have hov := dfs_overbudget g sz stage node_limit locked threshold f
            (⟨swapL s.tiles s.empty.toNat ni, s.size, (ni : Int)⟩ : PuzzleState)
            (gdep + 1) s.empty
            { b.2 with path := b.2.path ++
              [(swapL s.tiles s.empty.toNat ni).getD s.empty.toNat 0] }
            (by dsimp only; omega)
          rw [hov] at htf
          dsimp only at htf
          exact absurd (htf.symm.trans hbf') (by simp)
      -- recursive call found nothing: result keeps tc.2 with path popped
      · rcases hbr with hbl | ⟨hbr2a, hbr2b, hbr2c⟩
        · rcases hrec with hrl | hrr
          · refine ⟨Or.inl ?_, ?_, fun hcx => absurd (hcf.symm.trans hcx) (by simp)⟩
            · dsimp only at hrl ⊢
              rw [hrl]
              exact hbl
            · dsimp only at hrecn ⊢
              omega
          · refine ⟨Or.inr ⟨?_, ?_, ?_⟩, ?_, fun hcx => absurd (hcf.symm.trans hcx) (by simp)⟩
            · dsimp only at hrr ⊢
              exact hrr.1
            · dsimp only at hrr ⊢
              exact hrr.2.1
            · dsimp only at hrr ⊢
              rw [hrr.2.2, hbf', hcf]
            · dsimp only at hrecn ⊢
              omega
        · have hov := dfs_overbudget g sz stage node_limit locked threshold f
            (⟨swapL s.tiles s.empty.toNat ni, s.size, (ni : Int)⟩ : PuzzleState)
            (gdep + 1) s.empty
            { b.2 with path := b.2.path ++
              [(swapL s.tiles s.empty.toNat ni).getD s.empty.toNat 0] }
            (by dsimp only; omega)
          refine ⟨Or.inr ⟨?_, ?_, ?_⟩, ?_, fun hcx => absurd (hcf.symm.trans hcx) (by simp)⟩
          · rw [hov]
          · rw [hov]
            dsimp only
            omega
          · rw [hov]
            dsimp only
            exact hbr2c
          · rw [hov]
            dsimp only
            omega

theorem dfs_reason (g : Globals) (sz stage node_limit : Nat) (locked : List Nat)
    (threshold : Int) :
    ∀ (fuel : Nat) (s : PuzzleState) (gdep : Nat) (pe : Int) (ctx : DfsCtx),
      gdep ≤ ctx.nodes → node_limit + 2 ≤ fuel + gdep →
      ((dfsGo g sz stage node_limit locked threshold fuel s gdep pe ctx).2.failReason =
          ctx.failReason ∨
        ((dfsGo g sz stage node_limit locked threshold fuel s gdep pe ctx).2.failReason =
            "node_limit" ∧
          (dfsGo g sz stage node_limit locked threshold fuel s gdep pe ctx).2.nodes >
            node_limit ∧
          (dfsGo g sz stage node_limit locked threshold fuel s gdep pe ctx).2.found =
            ctx.found)) := by
  intro fuel
  induction fuel with
  | zero =>
    intro s gdep pe ctx hn hf
    refine Or.inr ⟨rfl, ?_, rfl⟩
    show ctx.nodes + 1 > node_limit
    omega
  | succ f ih =>
    intro s gdep pe ctx hn hf
    simp only [dfsGo]
    by_cases h1 : ctx.nodes + 1 > node_limit
    · rw [if_pos h1]
      exact Or.inr ⟨rfl, h1, rfl⟩
    · rw [if_neg h1]
      split
      · split_ifs with hcut hgoal
        · exact Or.inl rfl
        · exact Or.inl rfl
        · exact dfs_reason_fold g sz stage node_limit locked threshold f s gdep pe _
            (by dsimp only; omega) (by omega) ih
      · split_ifs with hcut hgoal
        · exact Or.inl rfl
        · exact Or.inl rfl
        · exact dfs_reason_fold g sz stage node_limit locked threshold f s gdep pe _
            (by dsimp only; omega) (by omega) ih

theorem ida_loop_spec (g : Globals) (start : PuzzleState) (sz stage node_limit : Nat)
    (timeoutAfter : Nat → Bool) (locked : List Nat) :
    ∀ (fuel iter : Nat) (threshold : Int) (path : List Nat) (reason : String)
      (res : IDAResult),
      ida_loop g start sz stage node_limit timeoutAfter locked fuel iter threshold path
        reason = some res →
      (res.success = true →
        res.fail_reason = reason ∧ res.length = res.moves.length ∧
        ∃ ms s', res.moves = path ++ ms ∧ LegalPath sz locked start ms s' ∧
          goalHit g stage sz s' = true) ∧
      (res.success = false →
        res.fail_reason = "search_limit" ∨ res.fail_reason = "timeout") := by
  intro fuel
  induction fuel with
  | zero =>
    intro iter th path reason res h
    simp [ida_loop] at h
  | succ f ihf =>
    intro iter th path reason res h
    simp only [ida_loop] at h
    have hp := dfs_path g sz stage node_limit locked th (node_limit + 2) start 0 (-1)
      ⟨0, [], path, false, reason⟩
    have hr := dfs_reason g sz stage node_limit locked th (node_limit + 2) start 0 (-1)
      ⟨0, [], path, false, reason⟩ (Nat.le_refl 0) (by omega)
    split_ifs at h with hfound hlim hto
    · have hres := (Option.some.injEq _ _).mp h
      subst hres
      refine ⟨fun _ => ⟨?_, rfl, ?_⟩, fun hc => absurd hc (by simp)⟩
      · rcases hr with h1 | h2
        · exact h1
        · exact absurd (hfound.symm.trans h2.2.2) (by simp)
      · obtain ⟨ms, s', hm, hlp, hg⟩ := hp.2 rfl hfound
        exact ⟨ms, s', hm, hlp, hg⟩
    · have hres := (Option.some.injEq _ _).mp h
      subst hres
      exact ⟨fun hc => absurd hc (by simp), fun _ => Or.inl rfl⟩
    · have hres := (Option.some.injEq _ _).mp h
      subst hres
      exact ⟨fun hc => absurd hc (by simp), fun _ => Or.inr rfl⟩
    · have hfound' : (dfsGo g sz stage node_limit locked th (node_limit + 2) start 0 (-1)
          ⟨0, [], path, false, reason⟩).2.found = false := by
        revert hfound
        cases (dfsGo g sz stage node_limit locked th (node_limit + 2) start 0 (-1)
          ⟨0, [], path, false, reason⟩).2.found <;> simp
      have hnle : ¬((dfsGo g sz stage node_limit locked th (node_limit + 2) start 0 (-1)
          ⟨0, [], path, false, reason⟩).2.nodes > node_limit) := fun hc => hlim (Or.inr hc)
      have hpe : (dfsGo g sz stage node_limit locked th (node_limit + 2) start 0 (-1)
          ⟨0, [], path, false, reason⟩).2.path = path := hp.1 hfound'
      have hre : (dfsGo g sz stage node_limit locked th (node_limit + 2) start 0 (-1)
          ⟨0, [], path, false, reason⟩).2.failReason = reason := by
        rcases hr with h1 | h2
        · exact h1
        · exact absurd h2.2.1 hnle
      have hrec := ihf (iter + 1)
        (dfsGo g sz stage node_limit locked th (node_limit + 2) start 0 (-1)
          ⟨0, [], path, false, reason⟩).1
        (dfsGo g sz stage node_limit locked th (node_limit + 2) start 0 (-1)
          ⟨0, [], path, false, reason⟩).2.path
        (dfsGo g sz stage node_limit locked th (node_limit + 2) start 0 (-1)
          ⟨0, [], path, false, reason⟩).2.failReason res h
      rw [hpe, hre] at hrec
      exact hrec

theorem ida_star_spec (g : Globals) (timeoutAfter : Nat → Bool) (start : PuzzleState)
    (sz max_depth stage node_limit time_limit_ms : Nat) (locked : List Nat)
    (res : IDAResult)
    (h : ida_star g timeoutAfter start sz max_depth stage node_limit time_limit_ms locked =
      some res) :
    (res.success = true →
      res.fail_reason = "" ∧ res.length = res.moves.length ∧
      ∃ s', LegalPath sz locked start res.moves s' ∧ goalHit g stage sz s' = true) ∧
    (res.success = false →
      res.fail_reason = "search_limit" ∨ res.fail_reason = "timeout") := by
  unfold ida_star at h
  have hspec := ida_loop_spec g start sz stage node_limit timeoutAfter locked 2147483647 0
    (if stage = 1 then (pdb_heuristic g start stage sz : Int) else (manhattan start : Int))
    [] "" res h
  refine ⟨fun hs => ?_, hspec.2⟩
  obtain ⟨hfr, hlen, ms, s', hm, hlp, hg⟩ := hspec.1 hs
  rw [List.nil_append] at hm
  exact ⟨hfr, hlen, s', hm ▸ hlp, hg⟩

theorem bibfsStep_fold_inv (sz : Nat) (locked : List Nat) (start state : PuzzleState)
    (moves : List Nat) (vis : List (List Nat))
    (hsm : LegalPath sz locked start moves state) :
    ∀ p ∈ (dir4.foldl (bibfsStep sz locked state moves state.empty.toNat) ([], vis)).1,
      LegalPath sz locked start p.2 p.1 := by
  refine List.foldlRecOn (motive := fun (acc : List (PuzzleState × List Nat) ×
      List (List Nat)) => ∀ p ∈ acc.1, LegalPath sz locked start p.2 p.1)
    dir4 (bibfsStep sz locked state moves state.empty.toNat) ([], vis)
    (by intro p hp; simp at hp) ?_
  intro b hb a ha
  unfold bibfsStep
  cases hni : neighborIdx sz state.empty.toNat a with
  | none => simp only [hni]; exact hb
  | some ni =>
    simp only [hni]
    split_ifs with hlk hvis
    · exact hb
    · exact hb
    · intro p hp
      rw [List.mem_append] at hp
      rcases hp with hp | hp
      · exact hb p hp
      · have hpe : p = ((⟨swapL state.tiles state.empty.toNat ni, state.size,
            (ni : Int)⟩ : PuzzleState), moves ++
            [(swapL state.tiles state.empty.toNat ni).getD state.empty.toNat 0]) := by
          simpa using hp
        subst hpe
        exact legalPath_append hsm
          (LegalPath.cons state a ni [] _ ha hni hlk (LegalPath.nil _))

theorem bibfsLoop_spec (sz max_depth node_limit : Nat) (locked : List Nat)
    (goal start : PuzzleState) :
    ∀ (q : List (PuzzleState × List Nat)) (vis : List (List Nat)) (nodes : Nat),
      (∀ p ∈ q, LegalPath sz locked start p.2 p.1) →
      (((bibfsLoop sz max_depth node_limit locked goal q vis nodes).success = true →
        (bibfsLoop sz max_depth node_limit locked goal q vis nodes).fail_reason = "" ∧
        (bibfsLoop sz max_depth node_limit locked goal q vis nodes).length =
          (bibfsLoop sz max_depth node_limit locked goal q vis nodes).moves.length ∧
        ∃ s', LegalPath sz locked start
            (bibfsLoop sz max_depth node_limit locked goal q vis nodes).moves s' ∧
          s'.tiles = goal.tiles) ∧
      ((bibfsLoop sz max_depth node_limit locked goal q vis nodes).success = false →
        (bibfsLoop sz max_depth node_limit locked goal q vis nodes).fail_reason = "failed" ∧
        (bibfsLoop sz max_depth node_limit locked goal q vis nodes).moves = [])) := by
  intro q vis nodes
  induction q, vis, nodes using bibfsLoop.induct sz max_depth node_limit locked goal with
  | case1 vis nodes =>
    intro _
    rw [bibfsLoop]
    exact ⟨fun hc => absurd hc (by simp), fun _ => ⟨rfl, rfl⟩⟩
  | case2 state moves rest vis nodes hlt hg =>
    intro hinv
    rw [bibfsLoop]
    rw [dif_pos hlt, if_pos hg]
    refine ⟨fun _ => ⟨rfl, rfl, state, ?_, hg⟩, fun hc => absurd hc (by simp)⟩
    exact hinv (state, moves) (List.mem_cons_self _ _)
  | case3 state moves rest vis nodes hlt hg hd ih =>
    intro hinv
    rw [bibfsLoop]
    rw [dif_pos hlt, if_neg hg, if_pos hd]
    exact ih (fun p hp => hinv p (List.mem_cons_of_mem _ hp))
  | case4 state moves rest vis nodes hlt hg hd qs ih =>
    intro hinv
    rw [bibfsLoop]
    rw [dif_pos hlt, if_neg hg, if_neg hd]
    refine ih ?_
    intro p hp
    rw [List.mem_append] at hp
    rcases hp with hp | hp
    · exact hinv p (List.mem_cons_of_mem _ hp)
    · exact bibfsStep_fold_inv sz locked start state moves vis
        (hinv (state, moves) (List.mem_cons_self _ _)) p hp
  | case5 state moves rest vis nodes hlt =>
    intro _
    rw [bibfsLoop]
    rw [dif_neg hlt]
    exact ⟨fun hc => absurd hc (by simp), fun _ => ⟨rfl, rfl⟩⟩

theorem bibfs_spec (start : PuzzleState) (sz max_depth stage node_limit : Nat)
    (locked : List Nat) :
    ((bibfs start sz max_depth stage node_limit locked).success = true →
      (bibfs start sz max_depth stage node_limit locked).fail_reason = "" ∧
      (bibfs start sz max_depth stage node_limit locked).length =
        (bibfs start sz max_depth stage node_limit locked).moves.length ∧
      ∃ s', LegalPath sz locked start
          (bibfs start sz max_depth stage node_limit locked).moves s' ∧
        s'.tiles = goalTiles sz) ∧
    ((bibfs start sz max_depth stage node_limit locked).success = false →
      (bibfs start sz max_depth stage node_limit locked).fail_reason = "failed" ∧
      (bibfs start sz max_depth stage node_limit locked).moves = []) := by
  have h := bibfsLoop_spec sz max_depth node_limit locked
    ⟨goalTiles sz, sz, ((sz * sz - 1 : Nat) : Int)⟩ start [(start, [])] [start.tiles] 0 ?_
  · exact h
  · intro p hp
    have hpe : p = (start, ([] : List Nat)) := by simpa using hp
    subst hpe
    exact LegalPath.nil start

theorem goalHit_stage2_iff (g : Globals) (sz : Nat) (s : PuzzleState) :
    goalHit g 2 sz s = true ↔ s.isSolved = true := by
  unfold goalHit
  simp

theorem goalHit_stage1_solved {g : Globals} {sz : Nat} {s : PuzzleState}
    (hv : ValidBoard sz s)
    (h4 : sz = 4 → g.pdb4s1 = build_pdb 4 6 14)
    (h5 : sz = 5 → g.pdb5s1 = build_pdb 5 12 16)
    (hsz : sz = 4 ∨ sz = 5)
    (h : goalHit g 1 sz s = true) : s.isSolved = true := by
  unfold goalHit at h
  simp at h
  rw [pdbh_stage1_eq_manhattan hv h4 h5 hsz] at h
  exact (manhattan_eq_zero_iff hv).mp h

theorem firstSuccess_mem :
    ∀ {l : List IDAResult} {res : IDAResult}, firstSuccess l = some res →
      res ∈ l ∧ res.success = true := by
  intro l
  induction l with
  | nil => intro res h; simp [firstSuccess] at h
  | cons a rs ih =>
    intro res h
    unfold firstSuccess at h
    split_ifs at h with hs
    · have he : a = res := (Option.some.injEq _ _).mp h
      subst he
      exact ⟨List.mem_cons_self _ _, hs⟩
    · have := ih h
      exact ⟨List.mem_cons_of_mem _ this.1, this.2⟩

theorem solve4Go_spec (g : Globals) (tos : Nat → Nat → Bool) :
    ∀ (todo : List Nat) (cur : PuzzleState) (locked acc : List Nat) (r : Int)
      (ws : List Nat),
      ValidBoard 4 cur →
      solve4Go g tos todo cur locked acc = some (r, ws) →
      (r = -1 ∧ ws = []) ∨
      (∃ ms s', ws = acc ++ ms ∧ r = (ws.length : Int) ∧ apply_moves cur ms = s' ∧
        s'.isSolved = true ∧ ValidBoard 4 s') := by
  intro todo
  induction todo with
  | nil =>
    intro cur locked acc r ws hv h
    simp only [solve4Go] at h
    cases hida : ida_star g (tos 6) cur 4 40 2 800000 16000 locked with
    | none => rw [hida] at h; simp at h
    | some res2 =>
      rw [hida] at h
      dsimp only at h
      split_ifs at h with hsucc hbs
      · rw [Option.some.injEq, Prod.mk.injEq] at h
        obtain ⟨hr, hw⟩ := h
        obtain ⟨hfr, hlen, s', hlp, hg⟩ :=
          (ida_star_spec g (tos 6) cur 4 40 2 800000 16000 locked res2 hida).1 hsucc
        have hrep := legalPath_replay hlp hv
        refine Or.inr ⟨res2.moves, s', hw.symm, ?_, hrep.1, ?_, hrep.2⟩
        · rw [← hw]; exact hr.symm
        · exact (goalHit_stage2_iff g 4 s').mp hg
      · rw [Option.some.injEq, Prod.mk.injEq] at h
        obtain ⟨hr, hw⟩ := h
        obtain ⟨hfr, hlen, s', hlp, hst⟩ := (bibfs_spec cur 4 40 2 200000 locked).1 hbs
        have hrep := legalPath_replay hlp hv
        refine Or.inr ⟨(bibfs cur 4 40 2 200000 locked).moves, s', hw.symm, ?_, hrep.1, ?_,
          hrep.2⟩
        · rw [← hw]; exact hr.symm
        · exact @tiles_isSolved 4 s' _ hst hrep.2.1 (goal_isSolved 4 ((4 * 4 - 1 : Nat) : Int))
      · rw [Option.some.injEq, Prod.mk.injEq] at h
        exact Or.inl ⟨h.1.symm, h.2.symm⟩
  | cons i rest ih =>
    intro cur locked acc r ws hv h
    simp only [solve4Go] at h
    by_cases hskip : cur.tiles.getD i 0 = i + 1
    · rw [if_pos hskip] at h
      exact ih cur (i :: locked) acc r ws hv h
    · rw [if_neg hskip] at h
      cases hida : ida_star g (tos i) cur 4 18 1 300000 4000 locked with
      | none => rw [hida] at h; simp at h
      | some res =>
        rw [hida] at h
        dsimp only at h
        split_ifs at h with hsucc
        · obtain ⟨hfr, hlen, s1, hlp, hg⟩ :=
            (ida_star_spec g (tos i) cur 4 18 1 300000 4000 locked res hida).1 hsucc
          have hrep := legalPath_replay hlp hv
          have hv1 : ValidBoard 4 (apply_moves cur res.moves) := by
            rw [hrep.1]; exact hrep.2
          rcases ih (apply_moves cur res.moves) (i :: locked) (acc ++ res.moves) r ws hv1 h
            with hl | ⟨ms, s', hws, hr, hap, hsolved, hvs⟩
          · exact Or.inl hl
          · refine Or.inr ⟨res.moves ++ ms, s', ?_, hr, ?_, hsolved, hvs⟩
            · rw [hws, List.append_assoc]
            · rw [apply_moves_append, hap]
        · rw [Option.some.injEq, Prod.mk.injEq] at h
          exact Or.inl ⟨h.1.symm, h.2.symm⟩

theorem solve5Go_spec (g : Globals) (tos : Nat → Nat → Bool) :
    ∀ (todo : List Nat) (cur : PuzzleState) (locked acc : List Nat) (r : Int)
      (ws : List Nat),
      ValidBoard 5 cur →
      solve5Go g tos todo cur locked acc = some (r, ws) →
      (r = -1 ∧ ws = []) ∨
      (∃ ms s', ws = acc ++ ms ∧ r = (ws.length : Int) ∧ apply_moves cur ms = s' ∧
        s'.isSolved = true ∧ ValidBoard 5 s') := by
  intro todo
  induction todo with
  | nil =>
    intro cur locked acc r ws hv h
    simp only [solve5Go] at h
    cases hida0 : ida_star g (tos 12) cur 5 60 2 400000 9000 locked with
    | none => rw [hida0] at h; simp at h
    | some r0 =>
    cases hida1 : ida_star g (tos 13) cur 5 60 2 400000 9000 locked with
    | none => rw [hida0, hida1] at h; simp at h
    | some r1 =>
    cases hida2 : ida_star g (tos 14) cur 5 60 2 400000 9000 locked with
    | none => rw [hida0, hida1, hida2] at h; simp at h
    | some r2 =>
    cases hida3 : ida_star g (tos 15) cur 5 60 2 400000 9000 locked with
    | none => rw [hida0, hida1, hida2, hida3] at h; simp at h
    | some r3 =>
    rw [hida0, hida1, hida2, hida3] at h
    dsimp only at h
    cases hfs : firstSuccess [r0, r1, r2, r3] with
    | some res =>
      rw [hfs] at h
      dsimp only at h
      rw [Option.some.injEq, Prod.mk.injEq] at h
      obtain ⟨hr, hw⟩ := h
      obtain ⟨hmem, hsucc⟩ := firstSuccess_mem hfs
      have hsp : ∃ s', LegalPath 5 locked cur res.moves s' ∧ goalHit g 2 5 s' = true := by
        have hm4 : res = r0 ∨ res = r1 ∨ res = r2 ∨ res = r3 := by simpa using hmem
        rcases hm4 with rfl | rfl | rfl | rfl
        · obtain ⟨_, _, s', hlp, hg⟩ :=
            (ida_star_spec g (tos 12) cur 5 60 2 400000 9000 locked res hida0).1 hsucc
          exact ⟨s', hlp, hg⟩
        · obtain ⟨_, _, s', hlp, hg⟩ :=
            (ida_star_spec g (tos 13) cur 5 60 2 400000 9000 locked res hida1).1 hsucc
          exact ⟨s', hlp, hg⟩
        · obtain ⟨_, _, s', hlp, hg⟩ :=
            (ida_star_spec g (tos 14) cur 5 60 2 400000 9000 locked res hida2).1 hsucc
          exact ⟨s', hlp, hg⟩
        · obtain ⟨_, _, s', hlp, hg⟩ :=
            (ida_star_spec g (tos 15) cur 5 60 2 400000 9000 locked res hida3).1 hsucc
          exact ⟨s', hlp, hg⟩
      obtain ⟨s', hlp, hg⟩ := hsp
      have hrep := legalPath_replay hlp hv
      refine Or.inr ⟨res.moves, s', hw.symm, ?_, hrep.1, ?_, hrep.2⟩
      · rw [← hw]; exact hr.symm
      · exact (goalHit_stage2_iff g 5 s').mp hg
    | none =>
      rw [hfs] at h
      dsimp only at h
      split_ifs at h with hbs
      · rw [Option.some.injEq, Prod.mk.injEq] at h
        obtain ⟨hr, hw⟩ := h
        obtain ⟨hfr, hlen, s', hlp, hst⟩ := (bibfs_spec cur 5 60 2 400000 locked).1 hbs
        have hrep := legalPath_replay hlp hv
        refine Or.inr ⟨(bibfs cur 5 60 2 400000 locked).moves, s', hw.symm, ?_, hrep.1, ?_,
          hrep.2⟩
        · rw [← hw]; exact hr.symm
        · exact @tiles_isSolved 5 s' _ hst hrep.2.1 (goal_isSolved 5 ((5 * 5 - 1 : Nat) : Int))
      · rw [Option.some.injEq, Prod.mk.injEq] at h
        exact Or.inl ⟨h.1.symm, h.2.symm⟩
  | cons i rest ih =>
    intro cur locked acc r ws hv h
    simp only [solve5Go] at h
    by_cases hskip : cur.tiles.getD i 0 = i + 1
    · rw [if_pos hskip] at h
      exact ih cur (i :: locked) acc r ws hv h
    · rw [if_neg hskip] at h
      cases hida : ida_star g (tos i) cur 5 25 1 250000 3000 locked with
      | none => rw [hida] at h; simp at h
      | some res =>
        rw [hida] at h
        dsimp only at h
        split_ifs at h with hsucc
        · obtain ⟨hfr, hlen, s1, hlp, hg⟩ :=
            (ida_star_spec g (tos i) cur 5 25 1 250000 3000 locked res hida).1 hsucc
          have hrep := legalPath_replay hlp hv
          have hv1 : ValidBoard 5 (apply_moves cur res.moves) := by
            rw [hrep.1]; exact hrep.2
          rcases ih (apply_moves cur res.moves) (i :: locked) (acc ++ res.moves) r ws hv1 h
            with hl | ⟨ms, s', hws, hr, hap, hsolved, hvs⟩
          · exact Or.inl hl
          · refine Or.inr ⟨res.moves ++ ms, s', ?_, hr, ?_, hsolved, hvs⟩
            · rw [hws, List.append_assoc]
            · rw [apply_moves_append, hap]
        · rw [Option.some.injEq, Prod.mk.injEq] at h
          exact Or.inl ⟨h.1.symm, h.2.symm⟩

theorem solve_4x4_replay {g : Globals} {tos : Nat → Nat → Bool} {start : PuzzleState}
    {r : Int} {ws : List Nat} (hv : ValidBoard 4 start)
    (h : solve_4x4 g tos start = some (r, ws)) :
    (r = -1 ∧ ws = []) ∨
    (r = (ws.length : Int) ∧ (apply_moves start ws).isSolved = true) := by
  unfold solve_4x4 at h
  rcases solve4Go_spec _ tos (List.range 6) start [] [] r ws hv h with hl |
    ⟨ms, s', hws, hr, hap, hsolved, _⟩
  · exact Or.inl hl
  · rw [List.nil_append] at hws
    subst hws
    exact Or.inr ⟨hr, by rw [hap]; exact hsolved⟩

theorem solve_5x5_replay {g : Globals} {tos : Nat → Nat → Bool} {start : PuzzleState}
    {r : Int} {ws : List Nat} (hv : ValidBoard 5 start)
    (h : solve_5x5 g tos start = some (r, ws)) :
    (r = -1 ∧ ws = []) ∨
    (r = (ws.length : Int) ∧ (apply_moves start ws).isSolved = true) := by
  unfold solve_5x5 at h
  rcases solve5Go_spec _ tos (List.range 12) start [] [] r ws hv h with hl |
    ⟨ms, s', hws, hr, hap, hsolved, _⟩
  · exact Or.inl hl
  · rw [List.nil_append] at hws
    subst hws
    exact Or.inr ⟨hr, by rw [hap]; exact hsolved⟩

theorem vfold_none_absorb (s : PuzzleState) (n : Nat) :
    ∀ l : List Nat, List.foldl (viStep s n) none l = none := by
  intro l
  induction l with
  | nil => rfl
  | cons i rest ih => exact ih

theorem vfold_bad (s : PuzzleState) (n : Nat) :
    ∀ (l : List Nat) (cnt0 : List Nat),
      (∃ i ∈ l, ¬(s.tiles.getD i 0 < n)) →
      List.foldl (viStep s n) (some cnt0) l = none := by
  intro l
  induction l with
  | nil => intro cnt0 h; simp at h
  | cons i rest ih =>
    intro cnt0 hex
    rw [List.foldl_cons]
    by_cases hgood : s.tiles.getD i 0 < n
    · have hstep : viStep s n (some cnt0) i =
          some (cnt0.set (s.tiles.getD i 0) (cnt0.getD (s.tiles.getD i 0) 0 + 1)) := by
        unfold viStep
        dsimp only
        rw [if_pos hgood]
      rw [hstep]
      obtain ⟨j, hj, hbad⟩ := hex
      rcases List.mem_cons.mp hj with rfl | hj
      · exact absurd hgood hbad
      · exact ih _ ⟨j, hj, hbad⟩
    · have hstep : viStep s n (some cnt0) i = none := by
        unfold viStep
        dsimp only
        rw [if_neg hgood]
      rw [hstep]
      exact vfold_none_absorb s n rest

theorem vfold_count (s : PuzzleState) (n : Nat) :
    ∀ (l : List Nat) (cnt0 : List Nat),
      (∀ i ∈ l, s.tiles.getD i 0 < n) →
      cnt0.length = n →
      ∃ cnt, List.foldl (viStep s n) (some cnt0) l = some cnt ∧ cnt.length = n ∧
        ∀ v : Nat, cnt.getD v 0 =
          cnt0.getD v 0 + ((l.map fun i => s.tiles.getD i 0).count v) := by
  intro l
  induction l with
  | nil =>
    intro cnt0 hall hlen
    exact ⟨cnt0, rfl, hlen, fun v => by simp⟩
  | cons i rest ih =>
    intro cnt0 hall hlen
    have hgood : s.tiles.getD i 0 < n := hall i (List.mem_cons_self _ _)
    have hstep : viStep s n (some cnt0) i =
        some (cnt0.set (s.tiles.getD i 0) (cnt0.getD (s.tiles.getD i 0) 0 + 1)) := by
      unfold viStep
      dsimp only
      rw [if_pos hgood]
    rw [List.foldl_cons, hstep]
    obtain ⟨cnt, heq, hclen, hcnt⟩ := ih
      (cnt0.set (s.tiles.getD i 0) (cnt0.getD (s.tiles.getD i 0) 0 + 1))
      (fun j hj => hall j (List.mem_cons_of_mem _ hj)) (by simpa using hlen)
    refine ⟨cnt, heq, hclen, ?_⟩
    intro v
    rw [hcnt v, List.map_cons, List.count_cons]
    by_cases hv : v = s.tiles.getD i 0
    · subst hv
      rw [getD_set_self (by omega)]
      simp
      omega
    · rw [getD_set_ne (fun hc => hv hc.symm)]
      have hb : (s.tiles.getD i 0 == v) = false := beq_eq_false_iff_ne.mpr (fun hc => hv hc.symm)
      rw [hb]
      simp

theorem validate_input_none {s : PuzzleState} {i : Nat} (hi : i < s.size * s.size)
    (hbad : ¬(s.tiles.getD i 0 < s.size * s.size)) : validate_input s = none := by
  unfold validate_input
  dsimp only
  rw [vfold_bad s (s.size * s.size) (List.range (s.size * s.size)) _
    ⟨i, List.mem_range.mpr hi, hbad⟩]

theorem validate_input_counts {s : PuzzleState}
    (hr : ∀ i < s.size * s.size, s.tiles.getD i 0 < s.size * s.size) :
    validate_input s = some ((List.range (s.size * s.size)).all
      fun v => ((List.range (s.size * s.size)).map fun i => s.tiles.getD i 0).count v == 1) := by
  unfold validate_input
  dsimp only
  obtain ⟨cnt, heq, hclen, hcnt⟩ := vfold_count s (s.size * s.size)
    (List.range (s.size * s.size)) (List.replicate (s.size * s.size) 0)
    (fun i hi => hr i (List.mem_range.mp hi)) (by simp)
  rw [heq]
  dsimp only
  have hc : ∀ v : Nat, cnt.getD v 0 =
      ((List.range (s.size * s.size)).map fun i => s.tiles.getD i 0).count v := by
    intro v
    rw [hcnt v]
    have hz : (List.replicate (s.size * s.size) (0 : Nat)).getD v 0 = 0 := by
      rcases Nat.lt_or_ge v (s.size * s.size) with hlt | hge

      · rw [List.getD_eq_getElem _ 0 (by simpa using hlt), List.getElem_replicate]
      · rw [List.getD_eq_default _ 0 (by simpa using hge)]
    rw [hz, Nat.zero_add]
  have hfg : (fun v => cnt.getD v 0 == 1) =
      (fun v => ((List.range (s.size * s.size)).map fun i => s.tiles.getD i 0).count v == 1) :=
    funext fun v => by rw [hc v]
  rw [hfg]

theorem validate_of_valid {sz : Nat} {s : PuzzleState} (hv : ValidBoard sz s) :
    validate_input s = some true := by
  have hlen := hv.tiles_length
  have hsz : s.size = sz := hv.1
  have hr : ∀ i < s.size * s.size, s.tiles.getD i 0 < s.size * s.size := by
    intro i hi
    rw [hsz] at hi ⊢
    have hib : i < s.tiles.length := by omega
    have hmem : s.tiles.getD i 0 ∈ s.tiles := by
      rw [List.getD_eq_getElem _ 0 hib]
      exact List.getElem_mem hib
    have := hv.2.1.mem_iff.mp hmem
    exact List.mem_range.mp this
  rw [validate_input_counts hr]
  rw [Option.some.injEq]
  rw [hsz, map_getD_range s.tiles (sz * sz) hlen]
  rw [List.all_eq_true]
  intro v hvm
  rw [beq_iff_eq, hv.count_eq v, if_pos (List.mem_range.mp hvm)]

theorem legalPath_mono {sz : Nat} {L0 L1 : List Nat} (hsub : ∀ j ∈ L0, j ∈ L1) :
    ∀ {s : PuzzleState} {ms : List Nat} {s' : PuzzleState},
      LegalPath sz L1 s ms s' → LegalPath sz L0 s ms s' := by
  intro s ms s' h
  induction h with
  | nil t => exact LegalPath.nil t
  | cons t d ni ms s2 hd hn hnl hrest ih =>
    exact LegalPath.cons t d ni ms s2 hd hn (fun hc => hnl (hsub ni hc)) ih

theorem legalPath_prefix_locked {sz : Nat} {locked : List Nat} {s : PuzzleState}
    {ms : List Nat} {s' : PuzzleState} (hp : LegalPath sz locked s ms s')
    (hv : ValidBoard sz s) (hplaced : ∀ j ∈ locked, s.tiles.getD j 0 = j + 1) :
    ∀ (k : Nat), ∀ j ∈ locked, (apply_moves s (ms.take k)).tiles.getD j 0 = j + 1 := by
  intro k j hj
  have hsp : LegalPath sz locked s (ms.take k ++ ms.drop k) s' := by
    rw [List.take_append_drop]; exact hp
  obtain ⟨mid, h1, h2⟩ := legalPath_split (ms.take k) hsp
  have hrep := legalPath_replay h1 hv
  have hblank : s.empty.toNat ∉ locked := by
    intro hc
    have h1 := hplaced _ hc
    have h2 := hv.2.2.2.2
    omega
  have hlk := legalPath_locked h1 hblank
  rw [hrep.1, hlk.1 j hj]
  exact hplaced j hj

theorem solve4Go_legal (g : Globals) (tos : Nat → Nat → Bool) :
    ∀ (todo : List Nat) (cur : PuzzleState) (locked acc : List Nat) (r : Int)
      (ws : List Nat),
      ValidBoard 4 cur →
      solve4Go g tos todo cur locked acc = some (r, ws) →
      (r = -1 ∧ ws = []) ∨
      (∃ ms s', ws = acc ++ ms ∧ LegalPath 4 locked cur ms s' ∧
        apply_moves cur ms = s' ∧ s'.isSolved = true) := by
  intro todo
  induction todo with
  | nil =>
    intro cur locked acc r ws hv h
    simp only [solve4Go] at h
    cases hida : ida_star g (tos 6) cur 4 40 2 800000 16000 locked with
    | none => rw [hida] at h; simp at h
    | some res2 =>
      rw [hida] at h
      dsimp only at h
      split_ifs at h with hsucc hbs
      · rw [Option.some.injEq, Prod.mk.injEq] at h
        obtain ⟨hr, hw⟩ := h
        obtain ⟨hfr, hlen, s', hlp, hg⟩ :=
          (ida_star_spec g (tos 6) cur 4 40 2 800000 16000 locked res2 hida).1 hsucc
        have hrep := legalPath_replay hlp hv
        exact Or.inr ⟨res2.moves, s', hw.symm, hlp, hrep.1,
          (goalHit_stage2_iff g 4 s').mp hg⟩
      · rw [Option.some.injEq, Prod.mk.injEq] at h
        obtain ⟨hr, hw⟩ := h
        obtain ⟨hfr, hlen, s', hlp, hst⟩ := (bibfs_spec cur 4 40 2 200000 locked).1 hbs
        have hrep := legalPath_replay hlp hv
        exact Or.inr ⟨(bibfs cur 4 40 2 200000 locked).moves, s', hw.symm, hlp, hrep.1,
          @tiles_isSolved 4 s' _ hst hrep.2.1 (goal_isSolved 4 ((4 * 4 - 1 : Nat) : Int))⟩
      · rw [Option.some.injEq, Prod.mk.injEq] at h
        exact Or.inl ⟨h.1.symm, h.2.symm⟩
  | cons i rest ih =>
    intro cur locked acc r ws hv h
    simp only [solve4Go] at h
    by_cases hskip : cur.tiles.getD i 0 = i + 1
    · rw [if_pos hskip] at h
      rcases ih cur (i :: locked) acc r ws hv h with hl | ⟨ms, s', hws, hlp, hap, hsol⟩
      · exact Or.inl hl
      · exact Or.inr ⟨ms, s', hws,
          legalPath_mono (fun j hj => List.mem_cons_of_mem _ hj) hlp, hap, hsol⟩
    · rw [if_neg hskip] at h
      cases hida : ida_star g (tos i) cur 4 18 1 300000 4000 locked with
      | none => rw [hida] at h; simp at h
      | some res =>
        rw [hida] at h
        dsimp only at h
        split_ifs at h with hsucc
        · obtain ⟨hfr, hlen, s1, hlp1, hg⟩ :=
            (ida_star_spec g (tos i) cur 4 18 1 300000 4000 locked res hida).1 hsucc
          have hrep := legalPath_replay hlp1 hv
          have hv1 : ValidBoard 4 (apply_moves cur res.moves) := by
            rw [hrep.1]; exact hrep.2
          rcases ih (apply_moves cur res.moves) (i :: locked) (acc ++ res.moves) r ws hv1 h
            with hl | ⟨ms, s', hws, hlp2, hap, hsol⟩
          · exact Or.inl hl
          · refine Or.inr ⟨res.moves ++ ms, s', ?_, ?_, ?_, hsol⟩
            · rw [hws, List.append_assoc]
            · have hlp2' : LegalPath 4 locked (apply_moves cur res.moves) ms s' :=
                legalPath_mono (fun j hj => List.mem_cons_of_mem _ hj) hlp2
              rw [hrep.1] at hlp2'
              exact legalPath_append hlp1 hlp2'
            · rw [apply_moves_append, hap]
        · rw [Option.some.injEq, Prod.mk.injEq] at h
          exact Or.inl ⟨h.1.symm, h.2.symm⟩

theorem solve5Go_legal (g : Globals) (tos : Nat → Nat → Bool) :
    ∀ (todo : List Nat) (cur : PuzzleState) (locked acc : List Nat) (r : Int)
      (ws : List Nat),
      ValidBoard 5 cur →
      solve5Go g tos todo cur locked acc = some (r, ws) →
      (r = -1 ∧ ws = []) ∨
      (∃ ms s', ws = acc ++ ms ∧ LegalPath 5 locked cur ms s' ∧
        apply_moves cur ms = s' ∧ s'.isSolved = true) := by
  intro todo
  induction todo with
  | nil =>
    intro cur locked acc r ws hv h
    simp only [solve5Go] at h
    cases hida0 : ida_star g (tos 12) cur 5 60 2 400000 9000 locked with
    | none => rw [hida0] at h; simp at h
    | some r0 =>
    cases hida1 : ida_star g (tos 13) cur 5 60 2 400000 9000 locked with
    | none => rw [hida0, hida1] at h; simp at h
    | some r1 =>
    cases hida2 : ida_star g (tos 14) cur 5 60 2 400000 9000 locked with
    | none => rw [hida0, hida1, hida2] at h; simp at h
    | some r2 =>
    cases hida3 : ida_star g (tos 15) cur 5 60 2 400000 9000 locked with
    | none => rw [hida0, hida1, hida2, hida3] at h; simp at h
    | some r3 =>
    rw [hida0, hida1, hida2, hida3] at h
    dsimp only at h
    cases hfs : firstSuccess [r0, r1, r2, r3] with
    | some res =>
      rw [hfs] at h
      dsimp only at h
      rw [Option.some.injEq, Prod.mk.injEq] at h
      obtain ⟨hr, hw⟩ := h
      obtain ⟨hmem, hsucc⟩ := firstSuccess_mem hfs
      have hsp : ∃ s', LegalPath 5 locked cur res.moves s' ∧ goalHit g 2 5 s' = true := by
        have hm4 : res = r0 ∨ res = r1 ∨ res = r2 ∨ res = r3 := by simpa using hmem
        rcases hm4 with rfl | rfl | rfl | rfl
        · obtain ⟨_, _, s', hlp, hg⟩ :=
            (ida_star_spec g (tos 12) cur 5 60 2 400000 9000 locked res hida0).1 hsucc
          exact ⟨s', hlp, hg⟩
        · obtain ⟨_, _, s', hlp, hg⟩ :=
            (ida_star_spec g (tos 13) cur 5 60 2 400000 9000 locked res hida1).1 hsucc
          exact ⟨s', hlp, hg⟩
        · obtain ⟨_, _, s', hlp, hg⟩ :=
            (ida_star_spec g (tos 14) cur 5 60 2 400000 9000 locked res hida2).1 hsucc
          exact ⟨s', hlp, hg⟩
        · obtain ⟨_, _, s', hlp, hg⟩ :=
            (ida_star_spec g (tos 15) cur 5 60 2 400000 9000 locked res hida3).1 hsucc
          exact ⟨s', hlp, hg⟩
      obtain ⟨s', hlp, hg⟩ := hsp
      have hrep := legalPath_replay hlp hv
      exact Or.inr ⟨res.moves, s', hw.symm, hlp, hrep.1, (goalHit_stage2_iff g 5 s').mp hg⟩
    | none =>
      rw [hfs] at h
      dsimp only at h
      split_ifs at h with hbs
      · rw [Option.some.injEq, Prod.mk.injEq] at h
        obtain ⟨hr, hw⟩ := h
        obtain ⟨hfr, hlen, s', hlp, hst⟩ := (bibfs_spec cur 5 60 2 400000 locked).1 hbs
        have hrep := legalPath_replay hlp hv
        exact Or.inr ⟨(bibfs cur 5 60 2 400000 locked).moves, s', hw.symm, hlp, hrep.1,
          @tiles_isSolved 5 s' _ hst hrep.2.1 (goal_isSolved 5 ((5 * 5 - 1 : Nat) : Int))⟩
      · rw [Option.some.injEq, Prod.mk.injEq] at h
        exact Or.inl ⟨h.1.symm, h.2.symm⟩
  | cons i rest ih =>
    intro cur locked acc r ws hv h
    simp only [solve5Go] at h
    by_cases hskip : cur.tiles.getD i 0 = i + 1
    · rw [if_pos hskip] at h
      rcases ih cur (i :: locked) acc r ws hv h with hl | ⟨ms, s', hws, hlp, hap, hsol⟩
      · exact Or.inl hl
      · exact Or.inr ⟨ms, s', hws,
          legalPath_mono (fun j hj => List.mem_cons_of_mem _ hj) hlp, hap, hsol⟩
    · rw [if_neg hskip] at h
      cases hida : ida_star g (tos i) cur 5 25 1 250000 3000 locked with
      | none => rw [hida] at h; simp at h
      | some res =>
        rw [hida] at h
        dsimp only at h
        split_ifs at h with hsucc
        · obtain ⟨hfr, hlen, s1, hlp1, hg⟩ :=
            (ida_star_spec g (tos i) cur 5 25 1 250000 3000 locked res hida).1 hsucc
          have hrep := legalPath_replay hlp1 hv
          have hv1 : ValidBoard 5 (apply_moves cur res.moves) := by
            rw [hrep.1]; exact hrep.2
          rcases ih (apply_moves cur res.moves) (i :: locked) (acc ++ res.moves) r ws hv1 h
            with hl | ⟨ms, s', hws, hlp2, hap, hsol⟩
          · exact Or.inl hl
          · refine Or.inr ⟨res.moves ++ ms, s', ?_, ?_, ?_, hsol⟩
            · rw [hws, List.append_assoc]
            · have hlp2' : LegalPath 5 locked (apply_moves cur res.moves) ms s' :=
                legalPath_mono (fun j hj => List.mem_cons_of_mem _ hj) hlp2
              rw [hrep.1] at hlp2'
              exact legalPath_append hlp1 hlp2'
            · rw [apply_moves_append, hap]
        · rw [Option.some.injEq, Prod.mk.injEq] at h
          exact Or.inl ⟨h.1.symm, h.2.symm⟩

theorem goalTiles_ne_pdbInit {sz ntiles : Nat} (h2 : 2 ≤ sz)
    (hn : ntiles + 2 ≤ sz * sz) : goalTiles sz ≠ pdbInitTiles sz ntiles := by
  intro he
  have h4 : 2 * 2 ≤ sz * sz := Nat.mul_le_mul h2 h2
  have hg := goalTiles_getD sz (sz * sz - 2)
  have hp := pdbInit_getD sz ntiles (sz * sz - 2) (by omega)
  rw [he, hp] at hg
  rw [if_neg (by omega), if_neg (by omega), if_pos (by omega)] at hg
  omega

/-! ### Claim theorems -/

/-- C1. For a valid board of size 4 or 5, whenever `solve_puzzle` returns, the
return value is 0 exactly when the input board is already solved; a positive
return value equals the number of move bytes written to the output buffer, and
those moves replayed from the input board yield the solved board; every other
outcome returns -1. -/
theorem c1_solve_puzzle_returns (g : Globals) (tos : Nat → Nat → Bool) (arr : List Nat)
    (sz : Nat) (buf : List Nat) (r : Int) (out : List Nat)
    (hsz : sz = 4 ∨ sz = 5)
    (hv : ValidBoard sz (mkState arr sz))
    (h : solve_puzzle g tos arr sz buf = some (r, out)) :
    (r = 0 ↔ (mkState arr sz).isSolved = true) ∧
    (0 < r → ∃ ms : List Nat, out = writeMoves buf ms ∧ r = (ms.length : Int) ∧
      0 < ms.length ∧ (apply_moves (mkState arr sz) ms).isSolved = true) ∧
    (r = -1 ∨ r = 0 ∨ 0 < r) := by
  unfold solve_puzzle at h
  dsimp only at h
  rw [validate_of_valid hv] at h
  dsimp only at h
  rw [if_neg (by decide)] at h
  by_cases hsolved : (mkState arr sz).isSolved = true
  · rw [if_pos hsolved] at h
    rw [Option.some.injEq, Prod.mk.injEq] at h
    obtain ⟨hr, hout⟩ := h
    subst hr
    exact ⟨iff_of_true rfl hsolved, fun hc => absurd hc (by omega),
      Or.inr (Or.inl rfl)⟩
  · rw [if_neg hsolved] at h
    rcases hsz with rfl | rfl
    · rw [if_pos rfl] at h
      cases hs4 : solve_4x4 g tos (mkState arr 4) with
      | none => rw [hs4] at h; simp at h
      | some rw4 =>
        rw [hs4] at h
        dsimp only at h
        split_ifs at h with hpos
        · rw [Option.some.injEq, Prod.mk.injEq] at h
          obtain ⟨hr, hout⟩ := h
          subst hr
          rcases solve_4x4_replay hv hs4 with ⟨hm1, _⟩ | ⟨hlen, hsol⟩
          · exact absurd hpos (by omega)
          · refine ⟨iff_of_false (by omega) hsolved,
              fun _ => ⟨rw4.2, hout.symm, hlen, ?_, hsol⟩, Or.inr (Or.inr hpos)⟩
            omega
        · rw [Option.some.injEq, Prod.mk.injEq] at h
          obtain ⟨hr, hout⟩ := h
          subst hr
          exact ⟨iff_of_false (by omega) hsolved, fun hc => absurd hc (by omega), Or.inl rfl⟩
    · rw [if_neg (by decide), if_pos rfl] at h
      cases hs5 : solve_5x5 g tos (mkState arr 5) with
      | none => rw [hs5] at h; simp at h
      | some rw5 =>
        rw [hs5] at h
        dsimp only at h
        split_ifs at h with hpos
        · rw [Option.some.injEq, Prod.mk.injEq] at h
          obtain ⟨hr, hout⟩ := h
          subst hr
          rcases solve_5x5_replay hv hs5 with ⟨hm1, _⟩ | ⟨hlen, hsol⟩
          · exact absurd hpos (by omega)
          · refine ⟨iff_of_false (by omega) hsolved,
              fun _ => ⟨rw5.2, hout.symm, hlen, ?_, hsol⟩, Or.inr (Or.inr hpos)⟩
            omega
        · rw [Option.some.injEq, Prod.mk.injEq] at h
          obtain ⟨hr, hout⟩ := h
          subst hr
          exact ⟨iff_of_false (by omega) hsolved, fun hc => absurd hc (by omega), Or.inl rfl⟩

/-- Witness for C1 on a concrete one-move 4×4 board. -/
theorem c1_witness :
    (((1 : Int) = 0) ↔
      (mkState [1,2,3,4,5,6,7,8,9,10,11,12,13,14,0,15] 4).isSolved = true) ∧
    ((0 : Int) < 1 → ∃ ms : List Nat, [15, 9, 9] = writeMoves [9, 9, 9] ms ∧
      (1 : Int) = (ms.length : Int) ∧ 0 < ms.length ∧
      (apply_moves (mkState [1,2,3,4,5,6,7,8,9,10,11,12,13,14,0,15] 4) ms).isSolved = true) ∧
    ((1 : Int) = -1 ∨ (1 : Int) = 0 ∨ (0 : Int) < 1) :=
  c1_solve_puzzle_returns ⟨[], [], []⟩ (fun _ _ => false)
    [1,2,3,4,5,6,7,8,9,10,11,12,13,14,0,15] 4 [9, 9, 9] 1 [15, 9, 9]
    (Or.inl rfl) (by decide) rfl

/-- C2. The locking contract of the staged solves, for 4×4 (cells 0..5) and 5×5
(cells 0..11). For each size: (1) each stage-loop iteration (`Solve4Step` /
`Solve5Step`, which mirror the two branches of the loop body) only ever grows
the locked list, and — given the PDB the loop actually runs with — the new
board is again valid and every locked cell, including the newly locked one,
holds its goal tile at the moment it is locked; (2) every successful loop
iteration of a real run is such a step; (3) from any loop state whose locked
cells hold their goal tiles, the moves the run emits form one legal path that
never moves the blank onto a locked cell, every locked cell holds its goal tile
on every intermediate board of the run (every prefix of the emitted moves), and
the run ends on the solved board; (4) the top-level entry runs the loop on the
built PDB with all stage cells pending and nothing locked. -/
theorem c2_locking_invariant (g : Globals) (tos : Nat → Nat → Bool) :
    ((∀ (todo todo' : List Nat) (cur cur' : PuzzleState)
        (locked locked' acc acc' : List Nat),
        Solve4Step g tos todo cur locked acc todo' cur' locked' acc' →
        (∀ j ∈ locked, j ∈ locked') ∧
        (g.pdb4s1 = build_pdb 4 6 14 → ValidBoard 4 cur →
          (∀ i ∈ todo, i < 4 * 4 - 1) →
          (∀ j ∈ locked, cur.tiles.getD j 0 = j + 1) →
          ValidBoard 4 cur' ∧ ∀ j ∈ locked', cur'.tiles.getD j 0 = j + 1)) ∧
      (∀ (i : Nat) (rest : List Nat) (cur : PuzzleState) (locked acc : List Nat)
          (r : Int) (ws : List Nat),
        solve4Go g tos (i :: rest) cur locked acc = some (r, ws) → 0 < r →
        ∃ cur' acc',
          Solve4Step g tos (i :: rest) cur locked acc rest cur' (i :: locked) acc' ∧
          solve4Go g tos rest cur' (i :: locked) acc' = some (r, ws)) ∧
      (∀ (todo : List Nat) (cur : PuzzleState) (locked acc : List Nat) (r : Int)
          (ws : List Nat),
        ValidBoard 4 cur →
        (∀ j ∈ locked, cur.tiles.getD j 0 = j + 1) →
        solve4Go g tos todo cur locked acc = some (r, ws) → 0 < r →
        ∃ ms s', ws = acc ++ ms ∧
          LegalPath 4 locked cur ms s' ∧
          apply_moves cur ms = s' ∧ s'.isSolved = true ∧
          ∀ k : Nat, ∀ j ∈ locked,
            (apply_moves cur (ms.take k)).tiles.getD j 0 = j + 1) ∧
      (∀ start : PuzzleState, g.pdb4s1 = [] ∨ g.pdb4s1 = build_pdb 4 6 14 →
        solve_4x4 g tos start =
          solve4Go { g with pdb4s1 := build_pdb 4 6 14 } tos (List.range 6) start [] [])) ∧
    ((∀ (todo todo' : List Nat) (cur cur' : PuzzleState)
        (locked locked' acc acc' : List Nat),
        Solve5Step g tos todo cur locked acc todo' cur' locked' acc' →
        (∀ j ∈ locked, j ∈ locked') ∧
        (g.pdb5s1 = build_pdb 5 12 16 → ValidBoard 5 cur →
          (∀ i ∈ todo, i < 5 * 5 - 1) →
          (∀ j ∈ locked, cur.tiles.getD j 0 = j + 1) →
          ValidBoard 5 cur' ∧ ∀ j ∈ locked', cur'.tiles.getD j 0 = j + 1)) ∧
      (∀ (i : Nat) (rest : List Nat) (cur : PuzzleState) (locked acc : List Nat)
          (r : Int) (ws : List Nat),
        solve5Go g tos (i :: rest) cur locked acc = some (r, ws) → 0 < r →
        ∃ cur' acc',
          Solve5Step g tos (i :: rest) cur locked acc rest cur' (i :: locked) acc' ∧
          solve5Go g tos rest cur' (i :: locked) acc' = some (r, ws)) ∧
      (∀ (todo : List Nat) (cur : PuzzleState) (locked acc : List Nat) (r : Int)
          (ws : List Nat),
        ValidBoard 5 cur →
        (∀ j ∈ locked, cur.tiles.getD j 0 = j + 1) →
        solve5Go g tos todo cur locked acc = some (r, ws) → 0 < r →
        ∃ ms s', ws = acc ++ ms ∧
          LegalPath 5 locked cur ms s' ∧
          apply_moves cur ms = s' ∧ s'.isSolved = true ∧
          ∀ k : Nat, ∀ j ∈ locked,
            (apply_moves cur (ms.take k)).tiles.getD j 0 = j + 1) ∧
      (∀ start : PuzzleState, g.pdb5s1 = [] ∨ g.pdb5s1 = build_pdb 5 12 16 →
        solve_5x5 g tos start =
          solve5Go { g with pdb5s1 := build_pdb 5 12 16 } tos
            (List.range 12) start [] [])) := by
  refine ⟨⟨?_, ?_, ?_, ?_⟩, ?_, ?_, ?_, ?_⟩
  · intro todo todo' cur cur' locked locked' acc acc' hstep
    cases hstep with
    | skip i rest cur locked acc hplace =>
      refine ⟨fun j hj => List.mem_cons_of_mem _ hj, ?_⟩
      intro hg hv htodo hinv
      refine ⟨hv, ?_⟩
      intro j hj
      rcases List.mem_cons.mp hj with rfl | hj
      · exact hplace
      · exact hinv j hj
    | search i rest cur locked acc res hplace hida hsucc =>
      refine ⟨fun j hj => List.mem_cons_of_mem _ hj, ?_⟩
      intro hg hv htodo hinv
      obtain ⟨_, _, s1, hlp, hgo⟩ :=
        (ida_star_spec g (tos i) cur 4 18 1 300000 4000 locked res hida).1 hsucc
      have hrep := legalPath_replay hlp hv
      have hs1 : s1.isSolved = true :=
        goalHit_stage1_solved hrep.2 (fun _ => hg) (fun hc => absurd hc (by decide))
          (Or.inl rfl) hgo
      have hall : ∀ j < 4 * 4 - 1, s1.tiles.getD j 0 = j + 1 :=
        ((isSolved_iff hrep.2.1).mp hs1).1
      have hv' : ValidBoard 4 (apply_moves cur res.moves) := by
        rw [hrep.1]; exact hrep.2
      refine ⟨hv', ?_⟩
      intro j hj
      rw [hrep.1]
      rcases List.mem_cons.mp hj with rfl | hj
      · exact hall j (htodo j (List.mem_cons_self _ _))
      · have hblank : cur.empty.toNat ∉ locked := by
          intro hc
          have h1 := hinv _ hc
          have h0 := hv.2.2.2.2
          omega
        have hlk := legalPath_locked hlp hblank
        rw [hlk.1 j hj]
        exact hinv j hj
  · intro i rest cur locked acc r ws h hr
    simp only [solve4Go] at h
    by_cases hskip : cur.tiles.getD i 0 = i + 1
    · rw [if_pos hskip] at h
      exact ⟨cur, acc, Solve4Step.skip i rest cur locked acc hskip, h⟩
    · rw [if_neg hskip] at h
      cases hida : ida_star g (tos i) cur 4 18 1 300000 4000 locked with
      | none => rw [hida] at h; simp at h
      | some res =>
        rw [hida] at h
        dsimp only at h
        split_ifs at h with hsucc
        · exact ⟨apply_moves cur res.moves, acc ++ res.moves,
            Solve4Step.search i rest cur locked acc res hskip hida hsucc, h⟩
        · rw [Option.some.injEq, Prod.mk.injEq] at h
          obtain ⟨h1, h2⟩ := h
          exfalso
          omega
  · intro todo cur locked acc r ws hv hplaced h hr
    rcases solve4Go_legal g tos todo cur locked acc r ws hv h with ⟨hm1, _⟩ |
      ⟨ms, s', hws, hlp, hap, hsol⟩
    · exact absurd hr (by omega)
    · exact ⟨ms, s', hws, hlp, hap, hsol, legalPath_prefix_locked hlp hv hplaced⟩
  · intro start hg
    unfold solve_4x4
    dsimp only
    split_ifs with hc
    · rfl
    · rcases hg with h1 | h2
      · exact absurd h1 hc
      · rw [← h2]
  · intro todo todo' cur cur' locked locked' acc acc' hstep
    cases hstep with
    | skip i rest cur locked acc hplace =>
      refine ⟨fun j hj => List.mem_cons_of_mem _ hj, ?_⟩
      intro hg hv htodo hinv
      refine ⟨hv, ?_⟩
      intro j hj
      rcases List.mem_cons.mp hj with rfl | hj
      · exact hplace
      · exact hinv j hj
    | search i rest cur locked acc res hplace hida hsucc =>
      refine ⟨fun j hj => List.mem_cons_of_mem _ hj, ?_⟩
      intro hg hv htodo hinv
      obtain ⟨_, _, s1, hlp, hgo⟩ :=
        (ida_star_spec g (tos i) cur 5 25 1 250000 3000 locked res hida).1 hsucc
      have hrep := legalPath_replay hlp hv
      have hs1 : s1.isSolved = true :=
        goalHit_stage1_solved hrep.2 (fun hc => absurd hc (by decide)) (fun _ => hg)
          (Or.inr rfl) hgo
      have hall : ∀ j < 5 * 5 - 1, s1.tiles.getD j 0 = j + 1 :=
        ((isSolved_iff hrep.2.1).mp hs1).1
      have hv' : ValidBoard 5 (apply_moves cur res.moves) := by
        rw [hrep.1]; exact hrep.2
      refine ⟨hv', ?_⟩
      intro j hj
      rw [hrep.1]
      rcases List.mem_cons.mp hj with rfl | hj
      · exact hall j (htodo j (List.mem_cons_self _ _))
      · have hblank : cur.empty.toNat ∉ locked := by
          intro hc
          have h1 := hinv _ hc
          have h0 := hv.2.2.2.2
          omega
        have hlk := legalPath_locked hlp hblank
        rw [hlk.1 j hj]
        exact hinv j hj
  · intro i rest cur locked acc r ws h hr
    simp only [solve5Go] at h
    by_cases hskip : cur.tiles.getD i 0 = i + 1
    · rw [if_pos hskip] at h
      exact ⟨cur, acc, Solve5Step.skip i rest cur locked acc hskip, h⟩
    · rw [if_neg hskip] at h
      cases hida : ida_star g (tos i) cur 5 25 1 250000 3000 locked with
      | none => rw [hida] at h; simp at h
      | some res =>
        rw [hida] at h
        dsimp only at h
        split_ifs at h with hsucc
        · exact ⟨apply_moves cur res.moves, acc ++ res.moves,
            Solve5Step.search i rest cur locked acc res hskip hida hsucc, h⟩
        · rw [Option.some.injEq, Prod.mk.injEq] at h
          obtain ⟨h1, h2⟩ := h
          exfalso
          omega
  · intro todo cur locked acc r ws hv hplaced h hr
    rcases solve5Go_legal g tos todo cur locked acc r ws hv h with ⟨hm1, _⟩ |
      ⟨ms, s', hws, hlp, hap, hsol⟩
    · exact absurd hr (by omega)
    · exact ⟨ms, s', hws, hlp, hap, hsol, legalPath_prefix_locked hlp hv hplaced⟩
  · intro start hg
    unfold solve_5x5
    dsimp only
    split_ifs with hc
    · rfl
    · rcases hg with h1 | h2
      · exact absurd h1 hc
      · rw [← h2]

/-- Witness for C2: the run-level invariant at a concrete loop state with cell 0
locked, on a one-move 4×4 board. -/
theorem c2_witness :
    ∃ ms s', [15] = [] ++ ms ∧
      LegalPath 4 [0] (mkState [1,2,3,4,5,6,7,8,9,10,11,12,13,14,0,15] 4) ms s' ∧
      apply_moves (mkState [1,2,3,4,5,6,7,8,9,10,11,12,13,14,0,15] 4) ms = s' ∧
      s'.isSolved = true ∧
      ∀ k : Nat, ∀ j ∈ [0],
        (apply_moves (mkState [1,2,3,4,5,6,7,8,9,10,11,12,13,14,0,15] 4)
          (ms.take k)).tiles.getD j 0 = j + 1 :=
  (c2_locking_invariant ⟨[], [], []⟩ (fun _ _ => false)).1.2.2.1
    (List.range 6) (mkState [1,2,3,4,5,6,7,8,9,10,11,12,13,14,0,15] 4) [0] [] 1 [15]
    (by decide) (by decide) rfl (by decide)

/-- C3 (amended). The mapping produced by `build_pdb` is degenerate: it is the
singleton sending the builder's start layout (tiles 1..ntiles followed by zeros)
to depth 0. The solved board's layout key is absent from the mapping, as is the
key of every valid board, so a lookup during search always misses. -/
theorem c3_build_pdb_degenerate (sz ntiles maxd : Nat) (h2 : 2 ≤ sz)
    (hn : ntiles + 2 ≤ sz * sz) :
    build_pdb sz ntiles maxd = [(pdbInitTiles sz ntiles, 0)] ∧
    (build_pdb sz ntiles maxd).lookup (goalTiles sz) = none ∧
    ∀ s : PuzzleState, ValidBoard sz s →
      (build_pdb sz ntiles maxd).lookup s.tiles = none := by
  have hsing := build_pdb_singleton sz ntiles maxd h2 (by omega)
  refine ⟨hsing, ?_, ?_⟩
  · rw [hsing]
    have hb : (goalTiles sz == pdbInitTiles sz ntiles) = false :=
      beq_eq_false_iff_ne.mpr (goalTiles_ne_pdbInit h2 hn)
    simp [List.lookup, hb]
  · intro s hv
    rw [hsing]
    have hb : (s.tiles == pdbInitTiles sz ntiles) = false :=
      beq_eq_false_iff_ne.mpr (valid_ne_pdbInit hv h2 hn)
    simp [List.lookup, hb]

/-- Counterexample to C3 as stated: the solved 4×4 layout key is not in the
built PDB at all — its lookup misses — the sole key being the builder's
start layout. -/
theorem c3_counterexample :
    (build_pdb 4 6 14).lookup (goalTiles 4) = none ∧
    goalTiles 4 ≠ pdbInitTiles 4 6 ∧
    (build_pdb 4 6 14).lookup (pdbInitTiles 4 6) = some 0 := by decide

/-- Witness for the amended C3 at the 4×4 stage-1 parameters. -/
theorem c3_witness :
    build_pdb 4 6 14 = [(pdbInitTiles 4 6, 0)] ∧
    (build_pdb 4 6 14).lookup (goalTiles 4) = none ∧
    (∀ s : PuzzleState, ValidBoard 4 s → (build_pdb 4 6 14).lookup s.tiles = none) :=
  c3_build_pdb_degenerate 4 6 14 (by decide) (by decide)

/-- C4 (amended). In a stage-1 search over the PDB the program actually builds,
the goal test h(state, 1) = 0 holds exactly when the board is fully solved, not
merely when the stage's prefix tiles are placed. -/
theorem c4_stage1_goal_iff_solved (g : Globals) (sz : Nat) (s : PuzzleState)
    (hv : ValidBoard sz s)
    (h4 : sz = 4 → g.pdb4s1 = build_pdb 4 6 14)
    (h5 : sz = 5 → g.pdb5s1 = build_pdb 5 12 16)
    (hsz : sz = 4 ∨ sz = 5) :
    (pdb_heuristic g s 1 sz = 0 ↔ s.isSolved = true) ∧
    (goalHit g 1 sz s = true ↔ s.isSolved = true) := by
  have hm := pdbh_stage1_eq_manhattan hv h4 h5 hsz
  constructor
  · rw [hm]
    exact manhattan_eq_zero_iff hv
  · constructor
    · exact goalHit_stage1_solved hv h4 h5 hsz
    · intro hs
      unfold goalHit
      simp
      rw [hm]
      exact (manhattan_eq_zero_iff hv).mpr hs

/-- Counterexample to C4 as stated: a 4×4 board with the stage-goal tiles 1..6
placed whose stage-1 heuristic is nonzero, so the stage-1 goal test rejects it. -/
theorem c4_counterexample :
    (∀ i < 6, (mkState [1,2,3,4,5,6,7,8,9,10,11,12,13,14,0,15] 4).tiles.getD i 0 = i + 1) ∧
    pdb_heuristic ⟨build_pdb 4 6 14, [], []⟩
      (mkState [1,2,3,4,5,6,7,8,9,10,11,12,13,14,0,15] 4) 1 4 ≠ 0 ∧
    (mkState [1,2,3,4,5,6,7,8,9,10,11,12,13,14,0,15] 4).isSolved = false := by decide

/-- Witness for the amended C4 on the solved 4×4 board. -/
theorem c4_witness :
    (pdb_heuristic ⟨build_pdb 4 6 14, [], []⟩
        (mkState [1,2,3,4,5,6,7,8,9,10,11,12,13,14,15,0] 4) 1 4 = 0 ↔
      (mkState [1,2,3,4,5,6,7,8,9,10,11,12,13,14,15,0] 4).isSolved = true) ∧
    (goalHit ⟨build_pdb 4 6 14, [], []⟩ 1 4
        (mkState [1,2,3,4,5,6,7,8,9,10,11,12,13,14,15,0] 4) = true ↔
      (mkState [1,2,3,4,5,6,7,8,9,10,11,12,13,14,15,0] 4).isSolved = true) :=
  c4_stage1_goal_iff_solved ⟨build_pdb 4 6 14, [], []⟩ 4
    (mkState [1,2,3,4,5,6,7,8,9,10,11,12,13,14,15,0] 4)
    (by decide) (fun _ => rfl) (fun hc => absurd hc (by decide)) (Or.inl rfl)

/-- C5 (amended). For a size other than 4 or 5, `solve_puzzle` returns -1 unless
the input passes validation and is already solved, in which case it returns 0:
the already-solved short-circuit runs before the size dispatch. -/
theorem c5_unsupported_size (g : Globals) (tos : Nat → Nat → Bool) (arr : List Nat)
    (sz : Nat) (buf : List Nat) (r : Int) (out : List Nat)
    (h4 : sz ≠ 4) (h5 : sz ≠ 5)
    (h : solve_puzzle g tos arr sz buf = some (r, out)) :
    r = -1 ∨ (r = 0 ∧ (mkState arr sz).isSolved = true) := by
  unfold solve_puzzle at h
  dsimp only at h
  cases hvi : validate_input (mkState arr sz) with
  | none => rw [hvi] at h; simp at h
  | some valid =>
    rw [hvi] at h
    dsimp only at h
    cases valid with
    | false =>
      rw [if_pos (by decide)] at h
      rw [Option.some.injEq, Prod.mk.injEq] at h
      exact Or.inl h.1.symm
    | true =>
      rw [if_neg (by decide)] at h
      by_cases hsolved : (mkState arr sz).isSolved = true
      · rw [if_pos hsolved] at h
        rw [Option.some.injEq, Prod.mk.injEq] at h
        exact Or.inr ⟨h.1.symm, hsolved⟩
      · rw [if_neg hsolved, if_neg h4, if_neg h5] at h
        rw [Option.some.injEq, Prod.mk.injEq] at h
        exact Or.inl h.1.symm

/-- Counterexample to C5 as stated: a valid, already-solved 3×3 input makes
`solve_puzzle` return 0, not -1, although 3 is outside {4, 5}. -/
theorem c5_counterexample :
    solve_puzzle ⟨[], [], []⟩ (fun _ _ => false) [1,2,3,4,5,6,7,8,0] 3 [] =
      some (0, []) ∧ (3 : Nat) ≠ 4 ∧ (3 : Nat) ≠ 5 ∧ (0 : Int) ≠ -1 :=
  ⟨rfl, by decide, by decide, by decide⟩

/-- Witness for the amended C5 on an unsolved 3×3 input. -/
theorem c5_witness :
    (-1 : Int) = -1 ∨
      ((-1 : Int) = 0 ∧ (mkState [1,2,3,4,5,6,7,0,8] 3).isSolved = true) :=
  c5_unsupported_size ⟨[], [], []⟩ (fun _ _ => false) [1,2,3,4,5,6,7,0,8] 3 [] (-1) []
    (by decide) (by decide) rfl

/-- C6 (amended). Every `ida_star` result carries the empty tag on success, and
on failure a tag from the closed set containing search_limit and timeout; in
particular a call that exhausts its node budget reports search_limit, because the
outer loop overwrites the inner node_limit tag. -/
theorem c6_failure_tags (g : Globals) (tmo : Nat → Bool) (start : PuzzleState)
    (sz max_depth stage node_limit time_limit_ms : Nat) (locked : List Nat)
    (res : IDAResult)
    (h : ida_star g tmo start sz max_depth stage node_limit time_limit_ms locked =
      some res) :
    (res.success = true → res.fail_reason = "") ∧
    (res.success = false →
      res.fail_reason = "search_limit" ∨ res.fail_reason = "timeout") := by
  have hs := ida_star_spec g tmo start sz max_depth stage node_limit time_limit_ms locked
    res h
  exact ⟨fun hsu => (hs.1 hsu).1, hs.2⟩

/-- Counterexample to C6 as stated: a run that exceeds its node budget (1 node
explored against a budget of 0) without finding a solution is tagged
search_limit, not node_limit. -/
theorem c6_counterexample :
    ida_star ⟨[], [], []⟩ (fun _ => false)
      (mkState [1,2,3,4,5,6,7,8,9,10,11,12,13,14,0,15] 4) 4 18 2 0 4000 [] =
      some ⟨[], false, 1, 0, "search_limit"⟩ ∧
    ("search_limit" : String) ≠ "node_limit" ∧ (1 : Nat) > 0 :=
  ⟨rfl, by decide, by decide⟩

/-- Witness for the amended C6 on the concrete exhausted run. -/
theorem c6_witness :
    ((⟨[], false, 1, 0, "search_limit"⟩ : IDAResult).success = true →
      (⟨[], false, 1, 0, "search_limit"⟩ : IDAResult).fail_reason = "") ∧
    ((⟨[], false, 1, 0, "search_limit"⟩ : IDAResult).success = false →
      (⟨[], false, 1, 0, "search_limit"⟩ : IDAResult).fail_reason = "search_limit" ∨
      (⟨[], false, 1, 0, "search_limit"⟩ : IDAResult).fail_reason = "timeout") :=
  c6_failure_tags ⟨[], [], []⟩ (fun _ => false)
    (mkState [1,2,3,4,5,6,7,8,9,10,11,12,13,14,0,15] 4) 4 18 2 0 4000 [] _ rfl

/-- C7. Applying a sequence of legal moves to a valid board and then replaying
the same move bytes in reverse order recovers the starting board exactly. -/
theorem c7_roundtrip (sz : Nat) (s : PuzzleState) (ms : List Nat) (s' : PuzzleState)
    (hv : ValidBoard sz s) (hp : LegalPath sz [] s ms s') :
    apply_moves s ms = s' ∧ apply_moves s' ms.reverse = s :=
  ⟨(legalPath_replay hp hv).1, legalPath_roundtrip hp hv⟩

/-- Witness for C7 on a concrete one-move walk. -/
theorem c7_witness :
    apply_moves (mkState [1,2,3,4,5,6,7,8,9,10,11,12,13,14,0,15] 4) [15] =
      (⟨[1,2,3,4,5,6,7,8,9,10,11,12,13,14,15,0], 4, (15 : Int)⟩ : PuzzleState) ∧
    apply_moves (⟨[1,2,3,4,5,6,7,8,9,10,11,12,13,14,15,0], 4, (15 : Int)⟩ : PuzzleState)
      (List.reverse [15]) = mkState [1,2,3,4,5,6,7,8,9,10,11,12,13,14,0,15] 4 :=
  c7_roundtrip 4 (mkState [1,2,3,4,5,6,7,8,9,10,11,12,13,14,0,15] 4) [15]
    (⟨[1,2,3,4,5,6,7,8,9,10,11,12,13,14,15,0], 4, (15 : Int)⟩ : PuzzleState)
    (by decide)
    (LegalPath.cons (mkState [1,2,3,4,5,6,7,8,9,10,11,12,13,14,0,15] 4)
      ((0 : Int), (1 : Int)) 15 []
      (⟨[1,2,3,4,5,6,7,8,9,10,11,12,13,14,15,0], 4, (15 : Int)⟩ : PuzzleState)
      (by decide) (by decide) (by simp) (LegalPath.nil _))

/-- C8. When the input passes validation and is already solved, `solve_puzzle`
returns 0 and the moves buffer is returned untouched. -/
theorem c8_solved_no_writes (g : Globals) (tos : Nat → Nat → Bool) (arr : List Nat)
    (sz : Nat) (buf : List Nat)
    (hval : validate_input (mkState arr sz) = some true)
    (hsolved : (mkState arr sz).isSolved = true) :
    solve_puzzle g tos arr sz buf = some (0, buf) := by
  unfold solve_puzzle
  dsimp only
  rw [hval]
  dsimp only
  rw [if_neg (by decide), if_pos hsolved]

/-- Witness for C8 on the solved 4×4 board with a nonempty buffer. -/
theorem c8_witness :
    solve_puzzle ⟨[], [], []⟩ (fun _ _ => false)
      [1,2,3,4,5,6,7,8,9,10,11,12,13,14,15,0] 4 [7, 7] = some (0, [7, 7]) :=
  c8_solved_no_writes ⟨[], [], []⟩ (fun _ _ => false)
    [1,2,3,4,5,6,7,8,9,10,11,12,13,14,15,0] 4 [7, 7] rfl rfl

/-- C9. `validate_input` counts each input byte with no prior range check: when
every byte is below size², it returns true exactly when each value 0..size²−1
appears exactly once, and any in-range position holding a byte ≥ size² makes the
count access go out of bounds (modelled as `none`). -/
theorem c9_validate_input_unchecked (s : PuzzleState) :
    ((∀ i < s.size * s.size, s.tiles.getD i 0 < s.size * s.size) →
      (validate_input s = some true ↔
        ∀ v < s.size * s.size,
          ((List.range (s.size * s.size)).map fun i => s.tiles.getD i 0).count v = 1)) ∧
    (∀ i, i < s.size * s.size → ¬(s.tiles.getD i 0 < s.size * s.size) →
      validate_input s = none) := by
  constructor
  · intro hr
    rw [validate_input_counts hr, Option.some.injEq, List.all_eq_true]
    constructor
    · intro hall v hv
      have := hall v (List.mem_range.mpr hv)
      exact beq_iff_eq.mp (by simpa using this)
    · intro hall v hv
      rw [beq_iff_eq]
      exact hall v (List.mem_range.mp hv)
  · intro i hi hbad
    exact validate_input_none hi hbad

/-- Witness for C9: a byte 9 on a 2×2 board drives the count access out of
bounds. -/
theorem c9_witness : validate_input (mkState [9, 1, 2, 3] 2) = none :=
  (c9_validate_input_unchecked (mkState [9, 1, 2, 3] 2)).2 0 (by decide) (by decide)

/-- C10. `validate_solution` relocates each named tile to the blank with no
adjacency check: the move byte 1 is illegal on the solved 4×4 board (tile 1 is
not adjacent to the blank), `apply_move` teleports it anyway, and the pair
consisting of the solved board and the move list [1, 1] is accepted with
verdict 1. -/
theorem c10_validate_solution_teleports :
    validate_solution [1,2,3,4,5,6,7,8,9,10,11,12,13,14,15,0] 4 [1, 1] 2 = 1 ∧
    legalMove (mkState [1,2,3,4,5,6,7,8,9,10,11,12,13,14,15,0] 4) 1 = false ∧
    (apply_move (mkState [1,2,3,4,5,6,7,8,9,10,11,12,13,14,15,0] 4) 1).tiles =
      [0,2,3,4,5,6,7,8,9,10,11,12,13,14,15,1] := by decide

end Sliding
